import Mathlib

/-!
Verification of the kiro-go-proxy gateway (Go sources) against its
natural-language specification.  Each Go function relevant to the checked
claims is shallowly embedded as an executable Lean definition; Go strings
are modeled as Lean `String` / `List Char`, Go slices as `List`, Go maps as
insertion-ordered association lists, machine integers as `Int`/`Nat`, and
`float64` (used only for the context-usage percentage) as `Rat`.
External-library boundaries (`encoding/json`) are modeled by an explicit
codec parameter.  Definitions are translated from the sources; theorems at
the end of the file settle the claims.
-/

namespace KiroProxy

/-! ## utils/utils.go -/

/-- Inbound message content is dynamic in Go (`interface\x7b\x7d`).  The shapes
`ExtractTextContent` distinguishes: `nil`, `string`, `[]interface\x7b\x7d` of
typed parts, and anything else (stringified by `fmt.Sprintf`). -/
inductive ContentItem where
  /-- a map with `"type" = "text"` and a string `"text"` field -/
  | textItem (text : String)
  /-- any other list element (non-map, non-text type, or non-string text) -/
  | otherItem
deriving DecidableEq, Repr

/-- Dynamic content value (`interface\x7b\x7d` in Go). -/
inductive MsgContent where
  | null
  | str (s : String)
  | parts (items : List ContentItem)
  /-- any other dynamic value; `repr` is its `fmt.Sprintf("%v", ·)` rendering -/
  | other (repr : String)
deriving DecidableEq, Repr

/-- utils.ExtractTextContent: text of a content item list. -/
def contentItemText : ContentItem → List String
  | .textItem t => [t]
  | .otherItem => []

/-- utils.ExtractTextContent (utils/utils.go): nil gives the empty string, a
string gives itself, a part list concatenates the text parts, anything else
is stringified. -/
def ExtractTextContent : MsgContent → String
  | .null => ""
  | .str s => s
  | .parts items => String.intercalate "" (items.flatMap contentItemText)
  | .other r => r

/-! ## converter: unified messages and the request shaper
(model/resolver_test.go, converter section) -/

/-- converter.ToolCall.Function (anonymous struct in Go). -/
structure ConvFunction where
  name : String
  arguments : String
deriving DecidableEq, Repr

/-- converter.ToolCall. -/
structure ConvToolCall where
  id : String
  ctype : String
  function : ConvFunction
deriving DecidableEq, Repr

/-- converter.ToolResult. -/
structure ConvToolResult where
  toolUseId : String
  content : MsgContent
deriving DecidableEq, Repr

/-- an image entry (`map[string]interface\x7b\x7d` in Go, used with keys
`media_type` and `data`). -/
structure ImageEntry where
  mediaType : String
  data : String
deriving DecidableEq, Repr

/-- converter.UnifiedMessage. -/
structure UnifiedMessage where
  role : String
  content : MsgContent
  toolCalls : List ConvToolCall
  toolResults : List ConvToolResult
  images : List ImageEntry
deriving DecidableEq, Repr

/-- converter.ToolCallsToText. -/
def ToolCallsToText (calls : List ConvToolCall) : String :=
  String.intercalate "\n\n" (calls.map fun tc =>
    if tc.id ≠ "" then
      "[Tool: " ++ tc.function.name ++ " (" ++ tc.id ++ ")]\n" ++ tc.function.arguments
    else
      "[Tool: " ++ tc.function.name ++ "]\n" ++ tc.function.arguments)

/-- converter.ToolResultsToText. -/
def ToolResultsToText (results : List ConvToolResult) : String :=
  String.intercalate "\n\n" (results.map fun tr =>
    let content := ExtractTextContent tr.content
    let content := if content = "" then "(empty result)" else content
    if tr.toolUseId ≠ "" then
      "[Tool Result (" ++ tr.toolUseId ++ ")]\n" ++ content
    else
      "[Tool Result]\n" ++ content)

/-- whether a message carries tool calls or tool results. -/
def hasToolContent (m : UnifiedMessage) : Bool :=
  !m.toolCalls.isEmpty || !m.toolResults.isEmpty

/-- converter.StripAllToolContent, per message. -/
def stripToolContentMsg (m : UnifiedMessage) : UnifiedMessage :=
  if hasToolContent m then
    let parts := [ExtractTextContent m.content]
    let parts := if !m.toolCalls.isEmpty then parts ++ [ToolCallsToText m.toolCalls] else parts
    let parts := if !m.toolResults.isEmpty then parts ++ [ToolResultsToText m.toolResults] else parts
    { role := m.role, content := .str (String.intercalate "\n\n" parts),
      toolCalls := [], toolResults := [], images := m.images }
  else m

/-- converter.StripAllToolContent: flattens tool calls/results into text;
also reports whether any message had tool content. -/
def StripAllToolContent (messages : List UnifiedMessage) :
    List UnifiedMessage × Bool :=
  (messages.map stripToolContentMsg, messages.any hasToolContent)

/-- merging two same-role adjacent messages (body of the same-role branch of
converter.MergeAdjacentMessages; images of the later message are not merged,
matching the Go code). -/
def mergeTwo (last msg : UnifiedMessage) : UnifiedMessage :=
  { role := last.role,
    content := .str (ExtractTextContent last.content ++ "\n" ++ ExtractTextContent msg.content),
    toolCalls := last.toolCalls ++ msg.toolCalls,
    toolResults := last.toolResults ++ msg.toolResults,
    images := last.images }

/-- loop of converter.MergeAdjacentMessages; `acc` is the Go slice `merged`
kept in reverse so its head is the most recently appended message. -/
def mergeRev (acc : List UnifiedMessage) :
    List UnifiedMessage → List UnifiedMessage
  | [] => acc.reverse
  | m :: t =>
    match acc with
    | [] => mergeRev [m] t
    | last :: rest =>
      if m.role = last.role then mergeRev (mergeTwo last m :: rest) t
      else mergeRev (m :: last :: rest) t

/-- converter.MergeAdjacentMessages. -/
def MergeAdjacentMessages (messages : List UnifiedMessage) : List UnifiedMessage :=
  mergeRev [] messages

/-- the synthetic `user` message converter.EnsureFirstMessageIsUser prepends. -/
def synthUserMessage : UnifiedMessage :=
  { role := "user", content := .str "(empty)", toolCalls := [], toolResults := [], images := [] }

/-- the synthetic `assistant` message converter.EnsureAlternatingRoles inserts. -/
def synthAssistantMessage : UnifiedMessage :=
  { role := "assistant", content := .str "(empty)", toolCalls := [], toolResults := [], images := [] }

/-- converter.EnsureFirstMessageIsUser. -/
def EnsureFirstMessageIsUser (messages : List UnifiedMessage) : List UnifiedMessage :=
  match messages with
  | [] => []
  | m :: t => if m.role = "user" then m :: t else synthUserMessage :: m :: t

/-- body of converter.NormalizeMessageRoles for a single message. -/
def normalizeRole (m : UnifiedMessage) : UnifiedMessage :=
  if m.role ≠ "user" ∧ m.role ≠ "assistant" then { m with role := "user" } else m

/-- converter.NormalizeMessageRoles: any role other than `user`/`assistant`
becomes `user`. -/
def NormalizeMessageRoles (messages : List UnifiedMessage) : List UnifiedMessage :=
  messages.map normalizeRole

/-- loop of converter.EnsureAlternatingRoles.  In the Go loop the last element
of `result` is always the original message appended on the previous
iteration, so the `result[len(result)-1]` check compares against `prev`. -/
def alternGo (prev : UnifiedMessage) :
    List UnifiedMessage → List UnifiedMessage
  | [] => []
  | m :: t =>
    if m.role = "user" ∧ prev.role = "user" then
      synthAssistantMessage :: m :: alternGo m t
    else
      m :: alternGo m t

/-- converter.EnsureAlternatingRoles (for fewer than two messages the Go code
returns the input unchanged, which coincides with the recursion below). -/
def EnsureAlternatingRoles (messages : List UnifiedMessage) : List UnifiedMessage :=
  match messages with
  | [] => []
  | m :: t => m :: alternGo m t

/-- the message-shaping pipeline of converter.BuildKiroPayload
(lines 931-946): tool stripping when the request carries no tools, then
MergeAdjacentMessages, EnsureFirstMessageIsUser, NormalizeMessageRoles,
EnsureAlternatingRoles.  `hasTools` is `len(tools) > 0`. -/
def buildKiroPayloadMessages (hasTools : Bool) (messages : List UnifiedMessage) :
    List UnifiedMessage :=
  let messages := if hasTools then messages else (StripAllToolContent messages).1
  let messages := MergeAdjacentMessages messages
  let messages := EnsureFirstMessageIsUser messages
  let messages := NormalizeMessageRoles messages
  EnsureAlternatingRoles messages

/-! ## parser: tool calls and deduplication (src/unnamed/part_001) -/

/-- parser.ToolCallFunction. -/
structure ToolCallFunction where
  name : String
  arguments : String
deriving DecidableEq, Repr

/-- parser.ToolCall. -/
structure ParserToolCall where
  id : String
  ctype : String
  function : ToolCallFunction
deriving DecidableEq, Repr

/-- the condition under which DeduplicateToolCalls replaces the entry already
stored for an id (part_001 lines 470-471).  Go's `len` counts UTF-8 bytes
where `String.length` counts characters; the two differ only on non-ASCII
arguments, and no theorem below depends on which entry wins the length
comparison. -/
def preferNewEntry (tc existing : ParserToolCall) : Bool :=
  tc.function.arguments ≠ "\x7b\x7d" &&
    (existing.function.arguments == "\x7b\x7d" ||
      tc.function.arguments.length > existing.function.arguments.length)

/-- association-list lookup (Go map read `byID[tc.ID]`; the Go map is modeled
as an insertion-ordered association list). -/
def alistFind (k : String) : List (String × ParserToolCall) → Option ParserToolCall
  | [] => none
  | (k', v) :: t => if k' = k then some v else alistFind k t

/-- association-list in-place update (Go map write to an existing key). -/
def alistReplace (k : String) (v : ParserToolCall) :
    List (String × ParserToolCall) → List (String × ParserToolCall)
  | [] => []
  | (k', v') :: t => if k' = k then (k, v) :: t else (k', v') :: alistReplace k v t

/-- one step of the by-id grouping loop of DeduplicateToolCalls. -/
def byIdStep (m : List (String × ParserToolCall)) (tc : ParserToolCall) :
    List (String × ParserToolCall) :=
  if tc.id = "" then m
  else
    match alistFind tc.id m with
    | none => m ++ [(tc.id, tc)]
    | some existing => if preferNewEntry tc existing then alistReplace tc.id tc m else m

/-- the `"%s-%s"` key used by the final name+arguments deduplication loop. -/
def nameArgsKey (tc : ParserToolCall) : String :=
  tc.function.name ++ "-" ++ tc.function.arguments

/-- the final seen-set loop of DeduplicateToolCalls, keeping first occurrences
by `nameArgsKey`. -/
def dedupByNameArgs (seen : List String) :
    List ParserToolCall → List ParserToolCall
  | [] => []
  | tc :: t =>
    if nameArgsKey tc ∈ seen then dedupByNameArgs seen t
    else tc :: dedupByNameArgs (nameArgsKey tc :: seen) t

/-- parser.DeduplicateToolCalls (part_001 lines 453-506): group by id keeping
the preferred entry, collect the grouped entries, append the id-less entries,
then deduplicate everything by the name+arguments key.  The `byID` Go map is
iterated in randomized order; this instance fixes insertion order and is used
only for order-insensitive facts (membership); order-sensitive claims are
stated about `DeduplicateToolCallsOrd` below, quantified over the order. -/
def DeduplicateToolCalls (toolCalls : List ParserToolCall) : List ParserToolCall :=
  if toolCalls = [] then []
  else
    let byID := toolCalls.foldl byIdStep []
    let result := byID.map Prod.snd ++ toolCalls.filter (fun tc => tc.id = "")
    dedupByNameArgs [] result

/-- parser.DeduplicateToolCalls with the Go map's randomized range order made
explicit: `order` is the sequence in which `for _, tc := range byID`
(part_001 line 479) visits the keys — any permutation of the key set.  The
content of each id-group is order-independent (it is accumulated key by key
over the input slice), so only the emission order of the grouped entries
varies; the id-less entries follow in input order, and the final
name+arguments pass runs over everything. -/
def DeduplicateToolCallsOrd (order : List String)
    (toolCalls : List ParserToolCall) : List ParserToolCall :=
  if toolCalls = [] then []
  else
    let byID := toolCalls.foldl byIdStep []
    let result := order.filterMap (fun k => alistFind k byID) ++
      toolCalls.filter (fun tc => tc.id = "")
    dedupByNameArgs [] result

/-! ## parser: event-stream state machine (src/unnamed/part_001)

The `encoding/json` boundary is modeled by an explicit codec: `parse` stands
for `json.Unmarshal` into a dynamic value and `serialize` for `json.Marshal`
of that value.  Feeding bytes through `Feed` dispatches each recognized JSON
object exactly once to `processEvent`; the state machine is quantified over
arbitrary sequences of decoded payloads, which subsumes every byte-level
feed sequence. -/

/-- the `encoding/json` boundary: `α` is the dynamic value type. -/
structure JsonCodec (α : Type) where
  parse : String → Option α
  serialize : α → String

/-- the dynamic `input` field of a tool-start / tool-input payload: a JSON
string, a JSON object, or anything else (Go leaves `inputStr` empty then). -/
inductive InputVal (α : Type) where
  | istr (s : String)
  | iobj (v : α)
  | iother
deriving DecidableEq, Repr

/-- decoded upstream payloads, one constructor per dispatch case of
`processEvent` (classified by the scanned object prefix). -/
inductive UpstreamPayload (α : Type) where
  | contentEv (content followupPrompt : String)
  | toolStartEv (name toolUseId : String) (input : InputVal α) (stop : Bool)
  | toolInputEv (input : InputVal α)
  | toolStopEv (stop : Bool)
  | usageEv (usage : Int)
  | contextUsageEv (percentage : Rat)
deriving DecidableEq, Repr

/-- parsed events emitted by the stream parser (parser.Event). -/
inductive ParserEvent where
  | contentEv (content : String)
  | usageEv (credits : Int)
  | contextUsageEv (percentage : Rat)
deriving DecidableEq, Repr

/-- parser.AwsEventStreamParser state.  `idCounter` models the source of
fresh `utils.GenerateToolCallID` values (random UUIDs in Go) as a counter;
which fresh ids are drawn does not affect the checked claims. -/
structure AwsEventStreamParser where
  lastContent : Option String
  currentToolCall : Option ParserToolCall
  toolCalls : List ParserToolCall
  idCounter : Nat
deriving DecidableEq, Repr

/-- a fresh tool-call id (utils.GenerateToolCallID modeled by a counter). -/
def genToolCallID (n : Nat) : String := "call_" ++ toString n

/-- the initial parser state (parser.NewAwsEventStreamParser). -/
def newAwsEventStreamParser : AwsEventStreamParser :=
  { lastContent := none, currentToolCall := none, toolCalls := [], idCounter := 0 }

/-- parser.finalizeToolCall (part_001 lines 307-339): parse-and-reserialize
the accumulated arguments, substituting `"\x7b\x7d"` when they are empty or do
not parse; generate an id when missing; append to the collected list. -/
def finalizeToolCall {α : Type} (codec : JsonCodec α)
    (p : AwsEventStreamParser) : AwsEventStreamParser :=
  match p.currentToolCall with
  | none => p
  | some tc =>
    let args := tc.function.arguments
    let args' :=
      if args ≠ "" then
        match codec.parse args with
        | some v => codec.serialize v
        | none => "\x7b\x7d"
      else "\x7b\x7d"
    let id' := if tc.id = "" then genToolCallID p.idCounter else tc.id
    let counter' := if tc.id = "" then p.idCounter + 1 else p.idCounter
    let tc' : ParserToolCall :=
      { id := id', ctype := tc.ctype,
        function := { name := tc.function.name, arguments := args' } }
    { p with currentToolCall := none, toolCalls := p.toolCalls ++ [tc'],
             idCounter := counter' }

/-- the `inputStr` computation shared by processToolStartEvent and
processToolInputEvent. -/
def inputValToString {α : Type} (codec : JsonCodec α) : InputVal α → String
  | .istr s => s
  | .iobj v => codec.serialize v
  | .iother => ""

/-- parser.processContentEvent. -/
def processContentEvent (p : AwsEventStreamParser)
    (content followupPrompt : String) :
    Option ParserEvent × AwsEventStreamParser :=
  if followupPrompt ≠ "" then (none, p)
  else if p.lastContent = some content then (none, p)
  else (some (.contentEv content), { p with lastContent := some content })

/-- parser.processToolStartEvent. -/
def processToolStartEvent {α : Type} (codec : JsonCodec α)
    (p : AwsEventStreamParser) (name toolUseId : String)
    (input : InputVal α) (stop : Bool) :
    Option ParserEvent × AwsEventStreamParser :=
  let p := if p.currentToolCall.isSome then finalizeToolCall codec p else p
  let inputStr := inputValToString codec input
  let p := { p with currentToolCall := some (
    { id := toolUseId, ctype := "function",
      function := { name := name, arguments := inputStr } } : ParserToolCall) }
  let p := if stop then finalizeToolCall codec p else p
  (none, p)

/-- parser.processToolInputEvent. -/
def processToolInputEvent {α : Type} (codec : JsonCodec α)
    (p : AwsEventStreamParser) (input : InputVal α) :
    Option ParserEvent × AwsEventStreamParser :=
  match p.currentToolCall with
  | none => (none, p)
  | some tc =>
    let inputStr := inputValToString codec input
    (none, { p with currentToolCall := some (
      { tc with function :=
        { tc.function with arguments := tc.function.arguments ++ inputStr } } : ParserToolCall) })

/-- parser.processToolStopEvent. -/
def processToolStopEvent {α : Type} (codec : JsonCodec α)
    (p : AwsEventStreamParser) (stop : Bool) :
    Option ParserEvent × AwsEventStreamParser :=
  if p.currentToolCall.isSome ∧ stop then (none, finalizeToolCall codec p)
  else (none, p)

/-- parser.processEvent: dispatch on the decoded payload. -/
def processEvent {α : Type} (codec : JsonCodec α)
    (p : AwsEventStreamParser) :
    UpstreamPayload α → Option ParserEvent × AwsEventStreamParser
  | .contentEv content followupPrompt => processContentEvent p content followupPrompt
  | .toolStartEv name toolUseId input stop =>
      processToolStartEvent codec p name toolUseId input stop
  | .toolInputEv input => processToolInputEvent codec p input
  | .toolStopEv stop => processToolStopEvent codec p stop
  | .usageEv u => (some (.usageEv u), p)
  | .contextUsageEv q => (some (.contextUsageEv q), p)

/-- running the parser on a sequence of decoded payloads (the cumulative
effect of any sequence of `Feed` calls on the tool-call state). -/
def runParser {α : Type} (codec : JsonCodec α)
    (payloads : List (UpstreamPayload α)) : AwsEventStreamParser :=
  payloads.foldl (fun p ev => (processEvent codec p ev).2) newAwsEventStreamParser

/-- parser.GetToolCalls: finalize any in-progress call, then deduplicate. -/
def GetToolCalls {α : Type} (codec : JsonCodec α)
    (p : AwsEventStreamParser) : List ParserToolCall :=
  let p := if p.currentToolCall.isSome then finalizeToolCall codec p else p
  DeduplicateToolCalls p.toolCalls

/-! ## parser: thinking-block FSM (src/parser/thinking.go) -/

/-- index of the first occurrence of `tag` in `hay`, if any
(strings.Index). -/
def subIdx (tag : List Char) : List Char → Option Nat
  | [] => if tag = [] then some 0 else none
  | c :: t =>
    if tag.isPrefixOf (c :: t) then some 0
    else (subIdx tag t).map (· + 1)

/-- strings.Contains. -/
def strContains (hay tag : String) : Bool := (subIdx tag.data hay.data).isSome

/-- strings.Index (−1 represented by `none`). -/
def strIndex (hay tag : String) : Option Nat := subIdx tag.data hay.data

/-- substring from `i` of length `n` dropped / taken on the char list. -/
def strDrop (s : String) (n : Nat) : String := ⟨s.data.drop n⟩

/-- prefix of length `n` of `s` on the char list. -/
def strTake (s : String) (n : Nat) : String := ⟨s.data.take n⟩

/-- parser.ThinkingParseResult. -/
structure ThinkingParseResult where
  thinkingContent : String
  regularContent : String
  isFirstThinkingChunk : Bool
  isLastThinkingChunk : Bool
deriving DecidableEq, Repr

/-- the empty result every Feed/Finalize starts from. -/
def emptyThinkingResult : ThinkingParseResult :=
  { thinkingContent := "", regularContent := "",
    isFirstThinkingChunk := false, isLastThinkingChunk := false }

/-- parser.ThinkingParser state (handling mode kept as the Go string). -/
structure ThinkingParser where
  handlingMode : String
  openTags : List String
  initialBufferSize : Nat
  foundThinking : Bool
  buffer : String
  inThinking : Bool
  thinkingContent : String
  thinkingTagOpen : String
  thinkingTagClose : String
  thinkingStarted : Bool
  thinkingEnded : Bool
  firstThinkingSent : Bool
deriving DecidableEq, Repr

/-- parser.NewThinkingParser. -/
def newThinkingParser (handlingMode : String) (openTags : List String)
    (initialBufferSize : Nat) : ThinkingParser :=
  let openTags :=
    if openTags = [] then ["<thinking>", "alettek", "<reasoning>", "<thought>"]
    else openTags
  { handlingMode := handlingMode, openTags := openTags,
    initialBufferSize := initialBufferSize, foundThinking := false,
    buffer := "", inThinking := false, thinkingContent := "",
    thinkingTagOpen := "", thinkingTagClose := "", thinkingStarted := false,
    thinkingEnded := false, firstThinkingSent := false }

/-- parser.ThinkingParser.getCloseTag. -/
def getCloseTag (openTag : String) : String :=
  if openTag = "alettek" then "alettek"
  else if openTag = "<thinking>" then "</thinking>"
  else if openTag = "<reasoning>" then "</reasoning>"
  else if openTag = "<thought>" then "</thought>"
  else "</" ++ strDrop openTag 1

/-- parser.ThinkingParser.processForOutput. -/
def processForOutput (p : ThinkingParser) (content : String)
    (isFirst isLast : Bool) : String :=
  if p.handlingMode = "remove" then ""
  else if p.handlingMode = "pass" then
    let content := if isFirst then p.thinkingTagOpen ++ content else content
    if isLast then content ++ p.thinkingTagClose else content
  else content

/-- parser.ThinkingParser.processThinkingContent (mutates the result being
built and the parser state). -/
def processThinkingContent (p : ThinkingParser) (content : String)
    (result : ThinkingParseResult) : ThinkingParseResult × ThinkingParser :=
  if p.thinkingTagClose = "" then (result, p)
  else
    match strIndex content p.thinkingTagClose with
    | some idx =>
      let thinkingPart := strTake content idx
      let regularPart := strDrop content (idx + p.thinkingTagClose.data.length)
      let p' := { p with thinkingContent := p.thinkingContent ++ thinkingPart,
                         inThinking := false, thinkingEnded := true }
      let result := { result with
        thinkingContent := processForOutput p' thinkingPart (!p'.firstThinkingSent) true,
        isLastThinkingChunk := true }
      let result :=
        if regularPart ≠ "" then { result with regularContent := regularPart } else result
      (result, p')
    | none =>
      let p' := { p with thinkingContent := p.thinkingContent ++ content }
      let result := { result with
        thinkingContent := processForOutput p' content (!p'.firstThinkingSent) false }
      if !p'.firstThinkingSent then
        ({ result with isFirstThinkingChunk := true }, { p' with firstThinkingSent := true })
      else (result, p')

/-- the first open tag (in tag-list order) contained in the buffer. -/
def findOpenTag (buffer : String) : List String → Option String
  | [] => none
  | tag :: rest => if strContains buffer tag then some tag else findOpenTag buffer rest

/-- parser.ThinkingParser.checkForThinkingTag (thinking.go lines 95-129). -/
def checkForThinkingTag (p : ThinkingParser) (result : ThinkingParseResult) :
    ThinkingParseResult × ThinkingParser :=
  match findOpenTag p.buffer p.openTags with
  | some tag =>
    let p := { p with foundThinking := true, inThinking := true,
                      thinkingTagOpen := tag, thinkingTagClose := getCloseTag tag }
    let idx := (strIndex p.buffer tag).getD 0
    let beforeTag := strTake p.buffer idx
    let afterTag := strDrop p.buffer (idx + tag.data.length)
    let result :=
      if beforeTag ≠ "" then { result with regularContent := beforeTag } else result
    let (result, p) :=
      if afterTag ≠ "" then processThinkingContent p afterTag result else (result, p)
    let p := { p with thinkingStarted := true }
    ({ result with isFirstThinkingChunk := true }, p)
  | none =>
    ({ result with regularContent := p.buffer }, { p with buffer := "" })

/-- parser.ThinkingParser.Feed (thinking.go lines 61-93).  The buffer
threshold compares `len(p.buffer)` (UTF-8 bytes) in Go and a character count
here; the two differ only on non-ASCII buffers, and the C7 finalize-in-PRE
behavior does not depend on when the threshold fires. -/
def thinkingFeed (p : ThinkingParser) (content : String) :
    ThinkingParseResult × ThinkingParser :=
  let result := emptyThinkingResult
  if p.thinkingEnded then ({ result with regularContent := content }, p)
  else if p.inThinking then processThinkingContent p content result
  else if !p.foundThinking then
    let p := { p with buffer := p.buffer ++ content }
    if p.buffer.data.length ≥ p.initialBufferSize then checkForThinkingTag p result
    else (result, p)
  else processThinkingContent p content result

/-- parser.ThinkingParser.Finalize (thinking.go lines 204-222). -/
def thinkingFinalize (p : ThinkingParser) : ThinkingParseResult × ThinkingParser :=
  let result := emptyThinkingResult
  let (result, p) :=
    if p.buffer ≠ "" ∧ !p.foundThinking then
      ({ result with regularContent := p.buffer }, { p with buffer := "" })
    else (result, p)
  if p.inThinking then
    let result := { result with
      thinkingContent := processForOutput p p.thinkingContent (!p.firstThinkingSent) true,
      isLastThinkingChunk := true }
    (result, { p with inThinking := false, thinkingEnded := true })
  else (result, p)

/-! ## stream: collected results and OpenAI framing (src/unnamed/part_004,
converter/openai_test.go, api/routes.go).  JSON serialization of the wire
objects is elided; the embedding works at the level of the structures the Go
code marshals. -/

/-- stream.StreamResult (usage map elided to the credits number). -/
structure StreamResult where
  content : String
  thinkingContent : String
  toolCalls : List ParserToolCall
  usageCredits : Option Int
  contextUsagePercentage : Option Rat
deriving DecidableEq, Repr

/-- truncation of a rational toward zero (Go `int(x)` on a float64). -/
def ratTrunc (q : Rat) : Int := if 0 ≤ q then ⌊q⌋ else -⌊-q⌋

/-- model.Cache contents relevant to token accounting and the resolver
(model/resolver_test.go lines 499-626); Go maps are modeled as
insertion-ordered association lists. -/
structure ModelCache where
  models : List String
  maxInput : List (String × Int)
  hiddenModels : List (String × String)
deriving DecidableEq, Repr

/-- generic association-list lookup. -/
def lookupStr (k : String) : List (String × String) → Option String
  | [] => none
  | (k', v) :: t => if k' = k then some v else lookupStr k t

/-- association-list lookup with integer values. -/
def lookupInt (k : String) : List (String × Int) → Option Int
  | [] => none
  | (k', v) :: t => if k' = k then some v else lookupInt k t

/-- model.Cache.GetMaxInputTokens: stored value or the 200000 default. -/
def GetMaxInputTokens (c : ModelCache) (modelID : String) : Int :=
  match lookupInt modelID c.maxInput with
  | some v => v
  | none => 200000

/-- stream.CalculateTokensFromContextUsage (part_004 lines 272-289), returning
(promptTokens, totalTokens). -/
def CalculateTokensFromContextUsage (contextUsagePercentage : Option Rat)
    (completionTokens : Int) (cache : ModelCache) (model : String) : Int × Int :=
  match contextUsagePercentage with
  | some p =>
    if 0 < p then
      let maxInputTokens := GetMaxInputTokens cache model
      let totalTokens := ratTrunc ((p / 100) * (maxInputTokens : Rat))
      let promptTokens := totalTokens - completionTokens
      let promptTokens := if promptTokens < 0 then 0 else promptTokens
      (promptTokens, totalTokens)
    else (0, completionTokens)
  | none => (0, completionTokens)

/-- converter.OpenAIFunction. -/
structure OpenAIFunction where
  name : String
  arguments : String
deriving DecidableEq, Repr

/-- converter.OpenAIToolCall. -/
structure OpenAIToolCall where
  id : String
  ctype : String
  function : OpenAIFunction
deriving DecidableEq, Repr

/-- converter.OpenAIMessage (fields used by CreateOpenAIResponse). -/
structure OpenAIMessage where
  role : String
  content : String
  toolCalls : List OpenAIToolCall
deriving DecidableEq, Repr

/-- converter.OpenAIChoice. -/
structure OpenAIChoice where
  index : Nat
  message : OpenAIMessage
  finishReason : String
deriving DecidableEq, Repr

/-- converter.OpenAIUsage. -/
structure OpenAIUsage where
  promptTokens : Int
  completionTokens : Int
  totalTokens : Int
deriving DecidableEq, Repr

/-- converter.OpenAIResponse. -/
structure OpenAIResponse where
  id : String
  object : String
  created : Int
  model : String
  choices : List OpenAIChoice
  usage : Option OpenAIUsage
deriving DecidableEq, Repr

/-- converter.convertToolCallsToOpenAI. -/
def convertToolCallsToOpenAI (calls : List ConvToolCall) : List OpenAIToolCall :=
  calls.map fun tc =>
    { id := tc.id, ctype := tc.ctype,
      function := { name := tc.function.name, arguments := tc.function.arguments } }

/-- converter.CreateOpenAIResponse (converter/openai_test.go lines 620-637):
the finish reason is used verbatim. -/
def CreateOpenAIResponse (id model content : String) (toolCalls : List ConvToolCall)
    (finishReason : String) (usage : Option OpenAIUsage) : OpenAIResponse :=
  { id := id, object := "chat.completion", created := 0, model := model,
    choices := [{ index := 0,
                  message := { role := "assistant", content := content,
                               toolCalls := convertToolCallsToOpenAI toolCalls },
                  finishReason := finishReason }],
    usage := usage }

/-- api.convertParserToolCalls (routes.go lines 847-867). -/
def convertParserToolCalls (calls : List ParserToolCall) : List ConvToolCall :=
  calls.map fun tc =>
    { id := tc.id, ctype := tc.ctype,
      function := { name := tc.function.name, arguments := tc.function.arguments } }

/-- the response built by api.handleNonStreamingChatCompletion from a
collected stream result (routes.go lines 284-307): token estimate, then
CreateOpenAIResponse with the literal finish reason `"stop"`.  The
`len(result.Content)/4` estimate counts UTF-8 bytes in Go and characters
here; this affects only the usage numbers, never the finish reason. -/
def handleNonStreamingChatCompletionResponse (conversationID model : String)
    (result : StreamResult) (cache : ModelCache) : OpenAIResponse :=
  let completionTokens : Int := (result.content.data.length : Int) / 4
  let (promptTokens, totalTokens) :=
    CalculateTokensFromContextUsage result.contextUsagePercentage completionTokens cache model
  CreateOpenAIResponse conversationID model result.content
    (convertParserToolCalls result.toolCalls) "stop"
    (some { promptTokens := promptTokens, completionTokens := completionTokens,
            totalTokens := totalTokens })

/-- the delta payload of an OpenAI streaming chunk. -/
inductive OpenAIDelta where
  | emptyDelta
  | contentDelta (content : String)
  | reasoningDelta (reasoningContent : String)
  | toolCallsDelta (index : Nat) (id ctype name arguments : String)
deriving DecidableEq, Repr

/-- an OpenAI chat-completion chunk at structure level (its JSON rendering is
elided). -/
structure OpenAIChunk where
  id : String
  model : String
  delta : OpenAIDelta
  index : Nat
  finishReason : Option String
deriving DecidableEq, Repr

/-- stream.createOpenAIDeltaChunk (part_004 lines 402-422): the finish_reason
field is attached only when non-empty. -/
def createOpenAIDeltaChunk (id model : String) (delta : OpenAIDelta)
    (index : Nat) (finishReason : String) : OpenAIChunk :=
  { id := id, model := model, delta := delta, index := index,
    finishReason := if finishReason ≠ "" then some finishReason else none }

/-- stream.createOpenAIFinishChunk (part_004 lines 387-389): an empty delta
with the literal finish reason `"stop"`. -/
def createOpenAIFinishChunk (id model : String) (index : Nat) : OpenAIChunk :=
  createOpenAIDeltaChunk id model .emptyDelta index "stop"

/-! ## client: retry loop (src/client/http.go) -/

/-- outcome of one attempt of `doRequest`: a transport error or a response
with a status code and body. -/
inductive AttemptOutcome where
  | transportErr (msg : String)
  | httpResp (status : Nat) (body : String)
deriving DecidableEq, Repr

/-- a successful response as seen by the caller of RequestWithRetry. -/
structure UpstreamResponse where
  status : Nat
  body : String
deriving DecidableEq, Repr

/-- rendering of `fmt.Errorf("... %w", lastErr)` for the final error: a nil
wrapped error renders as `%!w(<nil>)`. -/
def renderLastErr : Option String → String
  | none => "%!w(<nil>)"
  | some e => e

/-- the retry loop of client.RequestWithRetry (http.go lines 62-104).
`attempts i` is the outcome of the i-th `doRequest`; 403 (after a forced
token refresh), 429 and 5xx close the body and continue; other statuses
return the response.  `remaining` counts the attempts left. -/
def retryLoop (maxRetries : Nat) (attempts : Nat → AttemptOutcome) :
    Nat → Nat → Option String → Except String UpstreamResponse
  | 0, _, lastErr =>
    .error ("all " ++ toString maxRetries ++ " retry attempts failed: " ++
      renderLastErr lastErr)
  | remaining + 1, i, lastErr =>
    match attempts i with
    | .transportErr e => retryLoop maxRetries attempts remaining (i + 1) (some e)
    | .httpResp status body =>
      if status = 403 then retryLoop maxRetries attempts remaining (i + 1) lastErr
      else if status = 429 then retryLoop maxRetries attempts remaining (i + 1) lastErr
      else if 500 ≤ status then retryLoop maxRetries attempts remaining (i + 1) lastErr
      else .ok { status := status, body := body }

/-- client.RequestWithRetry. -/
def RequestWithRetry (maxRetries : Nat) (attempts : Nat → AttemptOutcome) :
    Except String UpstreamResponse :=
  retryLoop maxRetries attempts maxRetries 0 none

/-- the error envelope of the route handlers. -/
structure ErrorEnvelope where
  message : String
  etype : String
deriving DecidableEq, Repr

/-- the envelope api.handleStreamingChatCompletion (routes.go lines 194-203)
writes when the upstream request errors out:
`fmt.Sprintf("Request failed: %v", err)` with type `internal_error`. -/
def handleUpstreamRequestError (err : String) : ErrorEnvelope :=
  { message := "Request failed: " ++ err, etype := "internal_error" }

/-! ## auth: token lifecycle (src/unnamed/part_003).  Wall-clock instants are
modeled as integers (Unix seconds); the zero `time.Time` is `none`. -/

/-- auth.AuthType. -/
inductive AuthType where
  | kiroDesktop
  | awsSSOOIDC
deriving DecidableEq, Repr

/-- the manager fields GetAccessToken reads and writes. -/
structure AuthManager where
  accessToken : String
  refreshToken : String
  profileArn : String
  clientID : String
  clientSecret : String
  expiresAt : Option Int
  hasSqliteDB : Bool
  authType : AuthType
deriving DecidableEq, Repr

/-- the token row read back from SQLite (auth.TokenData); string fields are
applied only when non-empty, `expiresAt` only when it parses. -/
structure SqliteTokenData where
  accessToken : String
  refreshToken : String
  profileArn : String
  expiresAt : Option Int
deriving DecidableEq, Repr

/-- the decoded body of a refresh response. -/
structure RefreshResult where
  accessToken : String
  refreshToken : String
  profileArn : String
  expiresIn : Int
deriving DecidableEq, Repr

/-- outcome of the HTTP POST a refresh performs: transport error, or a
response with a status and (when it decodes) a parsed body. -/
inductive RefreshOutcome where
  | transportErr (msg : String)
  | httpResp (status : Nat) (body : Option RefreshResult)
deriving DecidableEq, Repr

/-- the environment a GetAccessToken call observes: the current instant, the
configured refresh threshold, the SQLite row available for re-reading, and
the refresh endpoint outcome. -/
structure AuthEnv where
  now : Int
  threshold : Int
  reload : Option SqliteTokenData
  refreshResp : RefreshOutcome
deriving DecidableEq, Repr

/-- auth.Manager.isTokenExpiringSoonUnlocked. -/
def isTokenExpiringSoonUnlocked (m : AuthManager) (env : AuthEnv) : Bool :=
  match m.expiresAt with
  | none => true
  | some t => env.now + env.threshold > t

/-- auth.Manager.isTokenExpiredUnlocked. -/
def isTokenExpiredUnlocked (m : AuthManager) (env : AuthEnv) : Bool :=
  match m.expiresAt with
  | none => true
  | some t => env.now > t

/-- auth.Manager.loadCredentialsFromSQLite restricted to the token row
(part_003 lines 184-209): each field applied only when present/non-empty. -/
def loadCredentialsFromSQLite (m : AuthManager) :
    Option SqliteTokenData → AuthManager
  | none => m
  | some td =>
    let m := if td.accessToken ≠ "" then { m with accessToken := td.accessToken } else m
    let m := if td.refreshToken ≠ "" then { m with refreshToken := td.refreshToken } else m
    let m := if td.profileArn ≠ "" then { m with profileArn := td.profileArn } else m
    match td.expiresAt with
    | some t => { m with expiresAt := some t }
    | none => m

/-- auth.Manager.refreshTokenKiroDesktop (part_003 lines 423-489): fails on a
missing refresh token, transport error, non-200 status, undecodable body, or
an empty accessToken in the response; otherwise installs the new token with
expiry now + expiresIn − 60 s. -/
def refreshTokenKiroDesktop (m : AuthManager) (env : AuthEnv) :
    Except String AuthManager :=
  if m.refreshToken = "" then .error "refresh token is not set"
  else
    match env.refreshResp with
    | .transportErr e => .error e
    | .httpResp status body =>
      if status ≠ 200 then
        .error ("token refresh failed with status " ++ toString status)
      else
        match body with
        | none => .error "failed to decode refresh response"
        | some r =>
          if r.accessToken = "" then .error "response does not contain accessToken"
          else
            .ok { m with
              accessToken := r.accessToken,
              refreshToken := if r.refreshToken ≠ "" then r.refreshToken else m.refreshToken,
              profileArn := if r.profileArn ≠ "" then r.profileArn else m.profileArn,
              expiresAt := some (env.now + r.expiresIn - 60) }

/-- auth.Manager.refreshTokenAWSSSOOIDC (part_003 lines 492-574): same shape
with clientID/clientSecret preconditions and no profile-ARN update. -/
def refreshTokenAWSSSOOIDC (m : AuthManager) (env : AuthEnv) :
    Except String AuthManager :=
  if m.refreshToken = "" then .error "refresh token is not set"
  else if m.clientID = "" then .error "client ID is not set (required for AWS SSO OIDC)"
  else if m.clientSecret = "" then .error "client secret is not set (required for AWS SSO OIDC)"
  else
    match env.refreshResp with
    | .transportErr e => .error e
    | .httpResp status body =>
      if status ≠ 200 then
        .error ("token refresh failed with status " ++ toString status)
      else
        match body with
        | none => .error "failed to decode refresh response"
        | some r =>
          if r.accessToken = "" then .error "AWS SSO OIDC response does not contain accessToken"
          else
            .ok { m with
              accessToken := r.accessToken,
              refreshToken := if r.refreshToken ≠ "" then r.refreshToken else m.refreshToken,
              expiresAt := some (env.now + r.expiresIn - 60) }

/-- auth.Manager.refreshTokenRequest: dispatch on the auth flavor. -/
def refreshTokenRequest (m : AuthManager) (env : AuthEnv) :
    Except String AuthManager :=
  match m.authType with
  | .awsSSOOIDC => refreshTokenAWSSSOOIDC m env
  | .kiroDesktop => refreshTokenKiroDesktop m env

/-- continuation of GetAccessToken after the optional SQLite re-read
(part_003 lines 369-385): early return when the reload yielded a fresh
token, otherwise refresh, with graceful degradation in SQLite mode when a
still-unexpired token remains. -/
def getAccessTokenAfterReload (m : AuthManager) (env : AuthEnv) :
    Except String (String × AuthManager) :=
  if m.hasSqliteDB ∧ m.accessToken ≠ "" ∧ ¬ isTokenExpiringSoonUnlocked m env then
    .ok (m.accessToken, m)
  else
    match refreshTokenRequest m env with
    | .ok m' => .ok (m'.accessToken, m')
    | .error e =>
      if m.hasSqliteDB ∧ m.accessToken ≠ "" ∧ ¬ isTokenExpiredUnlocked m env then
        .ok (m.accessToken, m)
      else .error ("failed to obtain access token: " ++ e)

/-- auth.Manager.GetAccessToken (part_003 lines 356-386): return a still
valid token; in SQLite mode re-read the row first; refresh otherwise. -/
def GetAccessToken (m : AuthManager) (env : AuthEnv) :
    Except String (String × AuthManager) :=
  if m.accessToken ≠ "" ∧ ¬ isTokenExpiringSoonUnlocked m env then
    .ok (m.accessToken, m)
  else
    getAccessTokenAfterReload
      (if m.hasSqliteDB ∧ isTokenExpiringSoonUnlocked m env then
        loadCredentialsFromSQLite m env.reload
      else m) env

/-! ## model: name normalization and resolution (model/resolver_test.go
lines 628-815).  Strings are handled as `List Char`; `strings.ToLower` is
modeled as per-character ASCII lowering (`Char.toLower`), which agrees with
Go on ASCII model names.  The five anchored regular expressions of
NormalizeModelName are `-`-structured: `\d+`, the family alternation,
`latest` and `\d\x7b8\x7d` can never contain `-`, so an anchored match is
equivalent to a shape check on the `-`-separated segments; pattern 5, whose
trailing `(.+)` may contain dashes, is embedded as a direct left-to-right
parse (its digit runs are committed because a shortened `\d+` would have to
be followed by a digit, never by the required `.` or `-`). -/

/-- strings.ToLower (ASCII). -/
def lowerL (l : List Char) : List Char := l.map Char.toLower

/-- membership of a char in the `\d` class (`[0-9]`). -/
def isDigitC (c : Char) : Bool := 48 ≤ c.toNat && c.toNat ≤ 57

/-- a non-empty digit run (`\d+`). -/
def digits1 (l : List Char) : Bool := !l.isEmpty && l.all isDigitC

/-- an eight-digit date segment (`\d\x7b8\x7d`). -/
def isDate8 (l : List Char) : Bool := l.length == 8 && l.all isDigitC

/-- the `haiku|sonnet|opus` alternation as a full segment. -/
def isFamSeg (l : List Char) : Bool :=
  l == "haiku".data || l == "sonnet".data || l == "opus".data

/-- the optional suffix alternation `\d\x7b8\x7d|latest|\d+` as a full
segment. -/
def isSfxSeg (l : List Char) : Bool :=
  isDate8 l || l == "latest".data || digits1 l

/-- a `\d+\.\d+` segment, split into its two digit runs. -/
def parseDotted (l : List Char) : Option (List Char × List Char) :=
  match l.span isDigitC with
  | (a, '.' :: rest) => if !a.isEmpty && digits1 rest then some (a, rest) else none
  | _ => none

/-- a `\d+\.\d+` segment. -/
def isDotted (l : List Char) : Bool := (parseDotted l).isSome

/-- split on `-` (the segment structure all five patterns are anchored
over). -/
def splitDash : List Char → List (List Char)
  | [] => [[]]
  | c :: t =>
    if c = '-' then [] :: splitDash t
    else
      match splitDash t with
      | [] => [[c]]
      | s :: rest => (c :: s) :: rest

/-- inverse of `splitDash`. -/
def joinDash : List (List Char) → List Char
  | [] => []
  | [s] => s
  | s :: rest => s ++ '-' :: joinDash rest

/-- pattern 1, `^(claude-(?:haiku|sonnet|opus)-\d+)-(\d\x7b1,2\x7d)(?:-(?:\d\x7b8\x7d|latest|\d+))?$`,
on the dash segments; the replacement is `match[1] ++ "." ++ match[2]`. -/
def tryP1 (sg : List (List Char)) : Option (List Char) :=
  match sg with
  | [c, f, maj, mn] =>
    if c = "claude".data ∧ isFamSeg f ∧ digits1 maj ∧ digits1 mn ∧ mn.length ≤ 2 then
      some ("claude-".data ++ f ++ '-' :: (maj ++ '.' :: mn))
    else none
  | [c, f, maj, mn, sfx] =>
    if c = "claude".data ∧ isFamSeg f ∧ digits1 maj ∧ digits1 mn ∧ mn.length ≤ 2 ∧
        isSfxSeg sfx then
      some ("claude-".data ++ f ++ '-' :: (maj ++ '.' :: mn))
    else none
  | _ => none

/-- pattern 2, `^(claude-(?:haiku|sonnet|opus)-\d+)(?:-\d\x7b8\x7d)?$`; the
replacement is `match[1]`. -/
def tryP2 (sg : List (List Char)) : Option (List Char) :=
  match sg with
  | [c, f, maj] =>
    if c = "claude".data ∧ isFamSeg f ∧ digits1 maj then
      some ("claude-".data ++ f ++ '-' :: maj)
    else none
  | [c, f, maj, d8] =>
    if c = "claude".data ∧ isFamSeg f ∧ digits1 maj ∧ isDate8 d8 then
      some ("claude-".data ++ f ++ '-' :: maj)
    else none
  | _ => none

/-- pattern 3, `^(claude)-(\d+)-(\d+)-(haiku|sonnet|opus)(?:-(?:\d\x7b8\x7d|latest|\d+))?$`;
the replacement rebuilds `claude-maj.mn-fam`. -/
def tryP3 (sg : List (List Char)) : Option (List Char) :=
  match sg with
  | [c, maj, mn, f] =>
    if c = "claude".data ∧ digits1 maj ∧ digits1 mn ∧ isFamSeg f then
      some ("claude-".data ++ maj ++ '.' :: (mn ++ '-' :: f))
    else none
  | [c, maj, mn, f, sfx] =>
    if c = "claude".data ∧ digits1 maj ∧ digits1 mn ∧ isFamSeg f ∧ isSfxSeg sfx then
      some ("claude-".data ++ maj ++ '.' :: (mn ++ '-' :: f))
    else none
  | _ => none

/-- pattern 4, `^(claude-(?:\d+\.\d+-)?(?:haiku|sonnet|opus)(?:-\d+\.\d+)?)-\d\x7b8\x7d$`;
the replacement is `match[1]`, i.e. everything before the trailing date. -/
def tryP4 (sg : List (List Char)) : Option (List Char) :=
  match sg with
  | [c, f, d8] =>
    if c = "claude".data ∧ isFamSeg f ∧ isDate8 d8 then
      some ("claude-".data ++ f)
    else none
  | [c, s1, s2, d8] =>
    if c = "claude".data ∧ isDate8 d8 ∧
        ((isDotted s1 ∧ isFamSeg s2) ∨ (isFamSeg s1 ∧ isDotted s2)) then
      some ("claude-".data ++ s1 ++ '-' :: s2)
    else none
  | [c, dd, f, dd2, d8] =>
    if c = "claude".data ∧ isDotted dd ∧ isFamSeg f ∧ isDotted dd2 ∧ isDate8 d8 then
      some ("claude-".data ++ dd ++ '-' :: (f ++ '-' :: dd2))
    else none
  | _ => none

/-- consume an expected literal from the front of a char list. -/
def dropPre : List Char → List Char → Option (List Char)
  | [], l => some l
  | _ :: _, [] => none
  | p :: ps, c :: cs => if c = p then dropPre ps cs else none

/-- consume one of the three family words from the front. -/
def dropFam (l : List Char) : Option (List Char × List Char) :=
  match dropPre "haiku".data l with
  | some r => some ("haiku".data, r)
  | none =>
    match dropPre "sonnet".data l with
    | some r => some ("sonnet".data, r)
    | none =>
      match dropPre "opus".data l with
      | some r => some ("opus".data, r)
      | none => none

/-- pattern 5, `^claude-(\d+)\.(\d+)-(haiku|sonnet|opus)-(.+)$`, parsed
directly (its suffix may contain dashes; `.` does not match a newline); the
replacement rebuilds `claude-fam-maj.mn`. -/
def tryP5 (l : List Char) : Option (List Char) :=
  match dropPre "claude-".data l with
  | none => none
  | some r1 =>
    match r1.span isDigitC with
    | (a, r2) =>
      if a.isEmpty then none
      else
        match r2 with
        | '.' :: r3 =>
          (match r3.span isDigitC with
          | (b, r4) =>
            if b.isEmpty then none
            else
              match r4 with
              | '-' :: r5 =>
                (match dropFam r5 with
                | none => none
                | some (f, r6) =>
                  match r6 with
                  | '-' :: r7 =>
                    if r7 ≠ [] ∧ ¬ '\n' ∈ r7 then
                      some ("claude-".data ++ f ++ '-' :: (a ++ '.' :: b))
                    else none
                  | _ => none)
              | _ => none)
        | _ => none

/-- the NormalizeModelName pattern chain over plain ASCII lowering: try the
five patterns on the lowered name in order, otherwise return the name
unchanged.  `normalizeLG` below (the model of the source function, with the
Unicode lowering explicit) coincides with this on ASCII inputs. -/
def normalizeL (name : List Char) : List Char :=
  if name = [] then name
  else
    let nameLower := lowerL name
    let sg := splitDash nameLower
    match tryP1 sg with
    | some o => o
    | none =>
      match tryP2 sg with
      | some o => o
      | none =>
        match tryP3 sg with
        | some o => o
        | none =>
          match tryP4 sg with
          | some o => o
          | none =>
            match tryP5 nameLower with
            | some o => o
            | none => name

/-- the Unicode boundary of the model resolver, treated like the JSON codec:
`toLower` is the per-rune mapping applied by `strings.ToLower`
(unicode.ToLower), and `foldEq` is the character equivalence a `(?i)` regexp
uses (membership in the same unicode.SimpleFold orbit).  The bundled
properties are exactly the facts about Go's Unicode tables the theorems rely
on: both maps agree with ASCII case mapping on ASCII characters; U+0130
(`İ`, LATIN CAPITAL LETTER I WITH DOT ABOVE) has the ASCII lowercase `i`
(UnicodeData.txt simple mapping, applied by strings.ToLower) yet folds with
no ASCII character (CaseFolding.txt gives U+0130 no simple folding, so its
SimpleFold orbit is a singleton and `(?i)i` does not match it). -/
structure GoUnicode where
  toLower : Char → Char
  foldEq : Char → Char → Bool
  ascii_toLower : ∀ c : Char, c.toNat < 128 → toLower c = c.toLower
  ascii_foldEq : ∀ c d : Char, c.toNat < 128 → d.toNat < 128 →
    foldEq c d = (c.toLower == d.toLower)
  dotI_toLower : toLower 'İ' = 'i'
  dotI_foldEq : ∀ d : Char, d.toNat < 128 → foldEq 'İ' d = false

/-- a concrete executable instance of the boundary: ASCII case mapping
extended with the Go mapping of U+0130; folding relates ASCII characters by
ASCII case and everything else only to itself (as Go does for U+0130). -/
def goUnicodeInst : GoUnicode where
  toLower c := if c = 'İ' then 'i' else c.toLower
  foldEq c d :=
    if c.toNat < 128 ∧ d.toNat < 128 then c.toLower == d.toLower else c == d
  ascii_toLower := by
    intro c hc
    have hne : c ≠ 'İ' := by
      intro h
      rw [h] at hc
      exact absurd hc (by decide)
    simp [hne]
  ascii_foldEq := by
    intro c d hc hd
    simp [hc, hd]
  dotI_toLower := by simp
  dotI_foldEq := by
    intro d hd
    have h1 : ¬(('İ' : Char).toNat < 128 ∧ d.toNat < 128) := by
      intro h
      exact absurd h.1 (by decide)
    show (if ('İ' : Char).toNat < 128 ∧ d.toNat < 128 then
        ('İ' : Char).toLower == d.toLower else ('İ' : Char) == d) = false
    rw [if_neg h1]
    have hne : ('İ' : Char) ≠ d := by
      intro h
      rw [← h] at hd
      exact absurd hd (by decide)
    exact beq_eq_false_iff_ne.mpr hne

/-- strings.ToLower under the boundary. -/
def lowerG (U : GoUnicode) (l : List Char) : List Char := l.map U.toLower

/-- model.NormalizeModelName (resolver_test.go lines 754-797) with the
Unicode lowering explicit: the five anchored patterns themselves are pure
ASCII and are applied to the lowered name, so the pattern chain is the same
one `normalizeL` runs on the ASCII-lowered name. -/
def normalizeLG (U : GoUnicode) (name : List Char) : List Char :=
  if name = [] then name
  else
    let nameLower := lowerG U name
    let sg := splitDash nameLower
    match tryP1 sg with
    | some o => o
    | none =>
      match tryP2 sg with
      | some o => o
      | none =>
        match tryP3 sg with
        | some o => o
        | none =>
          match tryP4 sg with
          | some o => o
          | none =>
            match tryP5 nameLower with
            | some o => o
            | none => name

/-- model.NormalizeModelName on `String`. -/
def NormalizeModelName (U : GoUnicode) (s : String) : String := ⟨normalizeLG U s.data⟩

/-- inputs matching pattern 4 with both optional numeric groups present
(`claude-D.D-family-D.D-date`): the one ASCII shape on which normalization
is not idempotent, because stripping the date leaves a string that pattern 5
then rewrites. -/
def isP4BothSegs (sg : List (List Char)) : Bool :=
  match sg with
  | [c, dd, f, dd2, d8] =>
    c == "claude".data && isDotted dd && isFamSeg f && isDotted dd2 && isDate8 d8
  | _ => false

/-- the same check on a whole model name, via ASCII lowering (it is only
ever assumed of ASCII inputs, where this agrees with strings.ToLower). -/
def isP4BothGroups (s : String) : Bool := isP4BothSegs (splitDash (lowerL s.data))

/-- the family word starting at the head of `l`, if any (the three
alternatives begin with distinct letters, so the alternation is
deterministic). -/
def famAt (l : List Char) : Option (List Char) :=
  if "haiku".data.isPrefixOf l then some "haiku".data
  else if "sonnet".data.isPrefixOf l then some "sonnet".data
  else if "opus".data.isPrefixOf l then some "opus".data
  else none

/-- leftmost family-word occurrence in an (already lowered) char list. -/
def extractFamL : List Char → List Char
  | [] => []
  | c :: t =>
    match famAt (c :: t) with
    | some f => f
    | none => extractFamL t

/-- one-position match under `(?i)` folding: does the input start with a
fold-equivalent of the (lowercase ASCII) pattern word?  Each pattern
character matches exactly one input character. -/
def prefixFold (U : GoUnicode) : List Char → List Char → Bool
  | [], _ => true
  | _ :: _, [] => false
  | p :: ps, c :: cs => U.foldEq c p && prefixFold U ps cs

/-- the regexp `(?i)(haiku|sonnet|opus)` tested at one position, returning
the matched input slice; the alternatives begin in pairwise distinct fold
classes (`h`/`s`/`o`), so the alternation is deterministic. -/
def famAtG (U : GoUnicode) (l : List Char) : Option (List Char) :=
  if prefixFold U "haiku".data l then some (l.take 5)
  else if prefixFold U "sonnet".data l then some (l.take 6)
  else if prefixFold U "opus".data l then some (l.take 4)
  else none

/-- leftmost `(?i)` family match; Go returns strings.ToLower of the matched
text (resolver_test.go line 803). -/
def extractFamG (U : GoUnicode) : List Char → List Char
  | [] => []
  | c :: t =>
    match famAtG U (c :: t) with
    | some m => lowerG U m
    | none => extractFamG U t

/-- model.ExtractModelFamily (resolver_test.go lines 800-806): leftmost
case-insensitive `haiku|sonnet|opus` occurrence in the raw name, lowercased;
empty when absent.  Unlike NormalizeModelName this searches the original
string under `(?i)` folding, which is why the two disagree off ASCII. -/
def ExtractModelFamily (U : GoUnicode) (s : String) : String :=
  ⟨extractFamG U s.data⟩

/-- lexicographic order on char lists by code point (the order
`sort.Strings` induces on UTF-8 byte strings). -/
def charListLt : List Char → List Char → Bool
  | [], [] => false
  | [], _ :: _ => true
  | _ :: _, [] => false
  | a :: as, b :: bs =>
    if a.toNat < b.toNat then true
    else if b.toNat < a.toNat then false
    else charListLt as bs

/-- string order used by the model list (Go `sort.Strings`). -/
def strLtB (a b : String) : Bool := charListLt a.data b.data

/-- insertion into a sorted, duplicate-free string list. -/
def insortD (s : String) : List String → List String
  | [] => [s]
  | x :: t =>
    if s = x then x :: t
    else if strLtB s x then s :: x :: t
    else x :: insortD s t

/-- sorted duplicate-free list of the elements (Go set-of-keys plus
`sort.Strings`). -/
def sortDedup (l : List String) : List String := l.foldr insortD []

/-- model.Cache.GetAllModelIDs: the sorted key set of the model map. -/
def GetAllModelIDs (c : ModelCache) : List String := sortDedup c.models

/-- model.Resolver fields used by GetAvailableModels. -/
structure ModelResolver where
  cache : ModelCache
  hiddenModels : List (String × String)
  aliases : List (String × String)
  hiddenFromList : List String
deriving DecidableEq, Repr

/-- model.Resolver.GetAvailableModels (resolver_test.go lines 701-730): a set
union of cache ids and hidden display names each filtered by the
hiddenFromList deny-set, plus all alias names (unfiltered), sorted. -/
def GetAvailableModels (r : ModelResolver) : List String :=
  sortDedup
    ((GetAllModelIDs r.cache).filter (fun id => !(r.hiddenFromList.contains id)) ++
     (r.hiddenModels.map Prod.fst).filter (fun n => !(r.hiddenFromList.contains n)) ++
     r.aliases.map Prod.fst)

/-- an attempt outcome the executor treats as retryable: a 403, 429 or 5xx
status response. -/
def retryableStatus (o : AttemptOutcome) : Prop :=
  ∃ s b, o = .httpResp s b ∧ (s = 403 ∨ s = 429 ∨ 500 ≤ s)

/-- all collected tool calls of a parser state have arguments accepted by the
JSON codec. -/
def argsParseOk {α : Type} (codec : JsonCodec α) (p : AwsEventStreamParser) : Prop :=
  ∀ tc ∈ p.toolCalls, (codec.parse tc.function.arguments).isSome = true

/-! # Theorems -/

/-! ## C10: GetAccessToken never returns an empty token -/

theorem refreshTokenKiroDesktop_ok_nonempty (m m' : AuthManager) (env : AuthEnv)
    (h : refreshTokenKiroDesktop m env = .ok m') : m'.accessToken ≠ "" := by
  unfold refreshTokenKiroDesktop at h
  repeat' split at h
  all_goals first
    | exact Except.noConfusion h
    | (cases h; simp_all)

theorem refreshTokenAWSSSOOIDC_ok_nonempty (m m' : AuthManager) (env : AuthEnv)
    (h : refreshTokenAWSSSOOIDC m env = .ok m') : m'.accessToken ≠ "" := by
  unfold refreshTokenAWSSSOOIDC at h
  repeat' split at h
  all_goals first
    | exact Except.noConfusion h
    | (cases h; simp_all)

theorem refreshTokenRequest_ok_nonempty (m m' : AuthManager) (env : AuthEnv)
    (h : refreshTokenRequest m env = .ok m') : m'.accessToken ≠ "" := by
  unfold refreshTokenRequest at h
  split at h
  · exact refreshTokenAWSSSOOIDC_ok_nonempty m m' env h
  · exact refreshTokenKiroDesktop_ok_nonempty m m' env h

theorem getAccessTokenAfterReload_ok_nonempty (m : AuthManager) (env : AuthEnv)
    (tok : String) (m' : AuthManager)
    (h : getAccessTokenAfterReload m env = .ok (tok, m')) : tok ≠ "" := by
  unfold getAccessTokenAfterReload at h
  split at h
  · next hc => cases h; exact hc.2.1
  · split at h
    · rename_i m2 hr
      injection h with hpair
      have h1 : m2.accessToken = tok := congrArg Prod.fst hpair
      rw [← h1]
      exact refreshTokenRequest_ok_nonempty m m2 env hr
    · rename_i e hr
      split at h
      · next hc => cases h; exact hc.2.1
      · exact Except.noConfusion h

/-- Claim C10: whenever Manager.GetAccessToken returns without an error, the
returned access-token string is non-empty: every success path either returns
a token already checked non-empty or follows a refresh that fails unless the
refresh response contained a non-empty accessToken. -/
theorem c10_getAccessToken_nonempty (m : AuthManager) (env : AuthEnv)
    (tok : String) (m' : AuthManager)
    (h : GetAccessToken m env = .ok (tok, m')) : tok ≠ "" := by
  unfold GetAccessToken at h
  split at h
  · next hc => cases h; exact hc.1
  · exact getAccessTokenAfterReload_ok_nonempty _ env tok m' h

theorem c10_witness :
    GetAccessToken
        { accessToken := "tok123", refreshToken := "r", profileArn := "",
          clientID := "", clientSecret := "", expiresAt := some 10000,
          hasSqliteDB := false, authType := .kiroDesktop }
        { now := 0, threshold := 600, reload := none,
          refreshResp := .transportErr "unreachable" } =
      .ok ("tok123",
        { accessToken := "tok123", refreshToken := "r", profileArn := "",
          clientID := "", clientSecret := "", expiresAt := some 10000,
          hasSqliteDB := false, authType := .kiroDesktop }) ∧
    "tok123" ≠ "" := by
  refine ⟨rfl, ?_⟩
  exact c10_getAccessToken_nonempty
    { accessToken := "tok123", refreshToken := "r", profileArn := "",
      clientID := "", clientSecret := "", expiresAt := some 10000,
      hasSqliteDB := false, authType := .kiroDesktop }
    { now := 0, threshold := 600, reload := none,
      refreshResp := .transportErr "unreachable" }
    "tok123"
    { accessToken := "tok123", refreshToken := "r", profileArn := "",
      clientID := "", clientSecret := "", expiresAt := some 10000,
      hasSqliteDB := false, authType := .kiroDesktop }
    rfl

/-! ## C8: retry exhaustion on retryable statuses -/

theorem retryLoop_all_retryable (maxRetries : Nat) (attempts : Nat → AttemptOutcome) :
    ∀ (remaining i : Nat),
      (∀ j, i ≤ j → j < i + remaining → retryableStatus (attempts j)) →
      retryLoop maxRetries attempts remaining i none =
        .error ("all " ++ toString maxRetries ++ " retry attempts failed: " ++
          "%!w(<nil>)") := by
  intro remaining
  induction remaining with
  | zero => intro i _; simp [retryLoop, renderLastErr]
  | succ n ih =>
    intro i hall
    obtain ⟨s, b, hout, hs⟩ := hall i (le_refl i) (by omega)
    unfold retryLoop
    rw [hout]
    have hrec := ih (i + 1) (fun j h1 h2 => hall j (by omega) (by omega))
    rcases hs with h403 | h429 | h5xx
    · simp [h403, hrec]
    · simp [h429, hrec]
    · have : ¬ s = 403 := by omega
      have : ¬ s = 429 := by omega
      simp_all [hrec]

/-- Claim C8 (corrected): after all maxRetries attempts end in a retryable
upstream status, the executor returns an error whose message is the fixed
retry-exhausted text wrapping the (nil) last transport error — the status
body is discarded — and the route handler reports it with kind
internal_error. -/
theorem c8_retry_exhaustion (maxRetries : Nat) (attempts : Nat → AttemptOutcome)
    (h : ∀ j, j < maxRetries → retryableStatus (attempts j)) :
    RequestWithRetry maxRetries attempts =
      .error ("all " ++ toString maxRetries ++ " retry attempts failed: " ++
        "%!w(<nil>)") ∧
    handleUpstreamRequestError
        ("all " ++ toString maxRetries ++ " retry attempts failed: " ++ "%!w(<nil>)") =
      { message := "Request failed: " ++ ("all " ++ toString maxRetries ++
          " retry attempts failed: " ++ "%!w(<nil>)"), etype := "internal_error" } := by
  constructor
  · exact retryLoop_all_retryable maxRetries attempts maxRetries 0
      (fun j _ h2 => h j (by omega))
  · rfl

theorem c8_witness :
    (∀ j, j < 3 → retryableStatus ((fun _ => .httpResp 500 "UPSTREAM BODY") j)) ∧
    RequestWithRetry 3 (fun _ => .httpResp 500 "UPSTREAM BODY") =
      .error ("all " ++ toString 3 ++ " retry attempts failed: " ++ "%!w(<nil>)") := by
  have hr : ∀ j, j < 3 → retryableStatus ((fun _ => AttemptOutcome.httpResp 500 "UPSTREAM BODY") j) :=
    fun j _ => ⟨500, "UPSTREAM BODY", rfl, Or.inr (Or.inr (by omega))⟩
  exact ⟨hr, (c8_retry_exhaustion 3 _ hr).1⟩

/-- Claim C8, counterexample: all three attempts return status 500 with body
`UPSTREAM BODY`; the returned internal_error message is the fixed
retry-exhausted text and does not carry the body of the last upstream status
response. -/
theorem c8_counterexample :
    RequestWithRetry 3 (fun _ => .httpResp 500 "UPSTREAM BODY") =
      .error "all 3 retry attempts failed: %!w(<nil>)" ∧
    (handleUpstreamRequestError "all 3 retry attempts failed: %!w(<nil>)").etype =
      "internal_error" ∧
    strContains
      (handleUpstreamRequestError "all 3 retry attempts failed: %!w(<nil>)").message
      "UPSTREAM BODY" = false := by
  exact ⟨rfl, rfl, by decide⟩

/-! ## C2: finish reasons are always synthesized as stop -/

/-- Claim C2 (corrected): the gateway synthesizes finish_reason `stop`
unconditionally — the streaming finish chunk always carries `stop`, and the
non-streaming chat handler passes the literal `stop` to CreateOpenAIResponse
regardless of emitted tool calls. -/
theorem c2_finish_reason_always_stop :
    (∀ (conversationID model : String) (result : StreamResult) (cache : ModelCache),
      (handleNonStreamingChatCompletionResponse conversationID model result cache).choices.map
          (fun c => c.finishReason) = ["stop"]) ∧
    (∀ (id model : String) (index : Nat),
      (createOpenAIFinishChunk id model index).finishReason = some "stop") := by
  constructor
  · intro conversationID model result cache
    rfl
  · intro id model index
    rfl

/-- Claim C2, counterexample: a non-streaming chat completion whose collected
stream produced exactly one tool call exposes finish_reason `stop`, not
`tool_calls`. -/
theorem c2_counterexample :
    (handleNonStreamingChatCompletionResponse "conv-1" "claude-haiku-4.5"
        { content := "", thinkingContent := "",
          toolCalls := [{ id := "t1", ctype := "function",
                          function := { name := "get_weather",
                                        arguments := "\x7b\"city\":\"Paris\"\x7d" } }],
          usageCredits := none, contextUsagePercentage := none }
        { models := [], maxInput := [], hiddenModels := [] }).choices.map
        (fun c => (c.finishReason, c.message.toolCalls.length)) = [("stop", 1)] ∧
    "stop" ≠ "tool_calls" := by
  decide

/-! ## C7: Finalize in the PRE state performs no tag search -/

/-- Claim C7 (corrected): finalizing the FSM while still in PRE with buffered
content emits the entire buffer as regular content and routes nothing to the
thinking channel; the open-tag search happens only during feeding when the
buffer threshold is reached. -/
theorem c7_finalize_pre_no_tag_search (p : ThinkingParser)
    (h1 : p.foundThinking = false) (h2 : p.inThinking = false)
    (h3 : p.buffer ≠ "") :
    (thinkingFinalize p).1 =
      { thinkingContent := "", regularContent := p.buffer,
        isFirstThinkingChunk := false, isLastThinkingChunk := false } ∧
    (thinkingFinalize p).2 = { p with buffer := "" } := by
  unfold thinkingFinalize
  simp [emptyThinkingResult, h1, h2, h3]

theorem c7_witness :
    ((thinkingFeed (newThinkingParser "as_reasoning_content" [] 100) "partial text").2.foundThinking = false ∧
     (thinkingFeed (newThinkingParser "as_reasoning_content" [] 100) "partial text").2.inThinking = false ∧
     (thinkingFeed (newThinkingParser "as_reasoning_content" [] 100) "partial text").2.buffer ≠ "") ∧
    (thinkingFinalize (thinkingFeed (newThinkingParser "as_reasoning_content" [] 100) "partial text").2).1 =
      { thinkingContent := "",
        regularContent := (thinkingFeed (newThinkingParser "as_reasoning_content" [] 100) "partial text").2.buffer,
        isFirstThinkingChunk := false, isLastThinkingChunk := false } := by
  refine ⟨by decide, ?_⟩
  exact (c7_finalize_pre_no_tag_search _ (by decide) (by decide) (by decide)).1

/-- Claim C7, counterexample: with threshold 100, feeding `<thinking>Hi`
stays in PRE with the full open tag buffered; Finalize emits the whole
buffer as regular content and nothing on the thinking channel, although a
recognized open tag occurs in the buffer — no tag search is performed at
finalization. -/
theorem c7_counterexample :
    (thinkingFinalize
        (thinkingFeed (newThinkingParser "as_reasoning_content" [] 100) "<thinking>Hi").2).1 =
      { thinkingContent := "", regularContent := "<thinking>Hi",
        isFirstThinkingChunk := false, isLastThinkingChunk := false } ∧
    strContains "<thinking>Hi" "<thinking>" = true := by
  decide

/-! ## C4: GetAvailableModels -/

theorem charListLt_total (a : List Char) :
    ∀ b : List Char, a = b ∨ charListLt a b = true ∨ charListLt b a = true := by
  induction a with
  | nil =>
    intro b
    cases b with
    | nil => exact Or.inl rfl
    | cons y ys => exact Or.inr (Or.inl rfl)
  | cons x xs ih =>
    intro b
    cases b with
    | nil => exact Or.inr (Or.inr rfl)
    | cons y ys =>
      rcases Nat.lt_trichotomy x.toNat y.toNat with hlt | heq | hgt
      · refine Or.inr (Or.inl ?_)
        simp [charListLt, hlt]
      · have hxy : x = y := by
          apply Char.eq_of_val_eq
          have h1 := heq
          unfold Char.toNat at h1
          exact UInt32.ext h1
        subst hxy
        rcases ih ys with h | h | h
        · exact Or.inl (by rw [h])
        · refine Or.inr (Or.inl ?_)
          simp [charListLt, h]
        · refine Or.inr (Or.inr ?_)
          simp [charListLt, h]
      · refine Or.inr (Or.inr ?_)
        simp [charListLt, hgt]

theorem strLtB_total (a b : String) (hne : a ≠ b) :
    strLtB a b = true ∨ strLtB b a = true := by
  rcases charListLt_total a.data b.data with h | h | h
  · exact absurd (String.ext h) hne
  · exact Or.inl h
  · exact Or.inr h

theorem mem_insortD (y s : String) (l : List String) :
    y ∈ insortD s l ↔ y = s ∨ y ∈ l := by
  induction l with
  | nil => simp [insortD]
  | cons x t ih =>
    unfold insortD
    split
    · next hsx =>
      subst hsx
      simp only [List.mem_cons]
      tauto
    · split
      · simp only [List.mem_cons]
      · simp only [List.mem_cons, ih]
        tauto

theorem insortD_head (s : String) (l : List String) :
    (insortD s l).head? = some s ∨ (insortD s l).head? = l.head? := by
  cases l with
  | nil => exact Or.inl rfl
  | cons x t =>
    unfold insortD
    split
    · next hsx => subst hsx; exact Or.inl rfl
    · split
      · exact Or.inl rfl
      · exact Or.inr rfl

theorem insortD_chain (s : String) (l : List String)
    (h : List.Chain' (fun a b => strLtB a b = true) l) :
    List.Chain' (fun a b => strLtB a b = true) (insortD s l) := by
  induction l with
  | nil => simp [insortD]
  | cons x t ih =>
    unfold insortD
    split
    · next hsx => subst hsx; exact h
    · split
      · next hlt => exact h.cons hlt
      · next hne hnlt =>
        rw [List.chain'_cons'] at h
        have hchain := ih h.2
        rw [List.chain'_cons']
        refine ⟨?_, hchain⟩
        intro y hy
        rcases insortD_head s t with hh | hh
        · rw [hh] at hy
          cases hy
          rcases strLtB_total s x hne with hc | hc
          · exact absurd hc hnlt
          · exact hc
        · rw [hh] at hy
          exact h.1 y hy

theorem mem_sortDedup (y : String) (l : List String) :
    y ∈ sortDedup l ↔ y ∈ l := by
  induction l with
  | nil => simp [sortDedup]
  | cons x t ih =>
    show y ∈ insortD x (sortDedup t) ↔ _
    rw [mem_insortD, ih]
    simp

theorem sortDedup_chain (l : List String) :
    List.Chain' (fun a b => strLtB a b = true) (sortDedup l) := by
  induction l with
  | nil => simp [sortDedup]
  | cons x t ih => exact insortD_chain x (sortDedup t) ih

/-- Claim C4 (corrected): GetAvailableModels returns the sorted union of the
cache's model ids and the hidden-model display names, each minus the
hiddenFromList deny-set, together with all alias names — alias names are not
filtered by the deny-set.  The result is sorted in ascending string order. -/
theorem c4_getAvailableModels (r : ModelResolver) :
    (∀ x, x ∈ GetAvailableModels r ↔
      ((x ∈ GetAllModelIDs r.cache ∧ x ∉ r.hiddenFromList) ∨
       (x ∈ r.hiddenModels.map Prod.fst ∧ x ∉ r.hiddenFromList) ∨
       x ∈ r.aliases.map Prod.fst)) ∧
    List.Chain' (fun a b => strLtB a b = true) (GetAvailableModels r) := by
  constructor
  · intro x
    unfold GetAvailableModels
    rw [mem_sortDedup]
    simp [List.mem_filter]
  · exact sortDedup_chain _

/-- Claim C4, counterexample: with an alias name placed in the hiddenFromList
deny-set (cache and hidden tables empty), the alias still appears in
GetAvailableModels, so the deny-set is not removed from the whole result. -/
theorem c4_counterexample :
    "fast" ∈ GetAvailableModels
      { cache := { models := [], maxInput := [], hiddenModels := [] },
        hiddenModels := [], aliases := [("fast", "claude-haiku-4.5")],
        hiddenFromList := ["fast"] } ∧
    "fast" ∈ ({ cache := { models := [], maxInput := [], hiddenModels := [] },
                hiddenModels := [], aliases := [("fast", "claude-haiku-4.5")],
                hiddenFromList := ["fast"] } : ModelResolver).hiddenFromList := by
  decide

/-! ## C5: tool-call deduplication -/

theorem mem_dedupByNameArgs_sub (x : ParserToolCall) :
    ∀ (seen : List String) (l : List ParserToolCall),
      x ∈ dedupByNameArgs seen l → x ∈ l := by
  intro seen l
  induction l generalizing seen with
  | nil => simp [dedupByNameArgs]
  | cons tc t ih =>
    unfold dedupByNameArgs
    split
    · intro h
      exact List.mem_cons_of_mem tc (ih seen h)
    · intro h
      rcases List.mem_cons.mp h with h | h
      · exact List.mem_cons.mpr (Or.inl h)
      · exact List.mem_cons_of_mem tc (ih _ h)

theorem mem_dedupByNameArgs_not_seen (x : ParserToolCall) :
    ∀ (seen : List String) (l : List ParserToolCall),
      x ∈ dedupByNameArgs seen l → nameArgsKey x ∉ seen := by
  intro seen l
  induction l generalizing seen with
  | nil => simp [dedupByNameArgs]
  | cons tc t ih =>
    unfold dedupByNameArgs
    split
    · intro h
      exact ih seen h
    · next hni =>
      intro h
      rcases List.mem_cons.mp h with h | h
      · subst h; exact hni
      · have := ih _ h
        intro hx
        exact this (List.mem_cons_of_mem _ hx)

theorem dedupByNameArgs_pairwise :
    ∀ (seen : List String) (l : List ParserToolCall),
      List.Pairwise (fun a b => nameArgsKey a ≠ nameArgsKey b)
        (dedupByNameArgs seen l) := by
  intro seen l
  induction l generalizing seen with
  | nil => simp [dedupByNameArgs]
  | cons tc t ih =>
    unfold dedupByNameArgs
    split
    · exact ih seen
    · refine List.Pairwise.cons ?_ (ih _)
      intro y hy
      have := mem_dedupByNameArgs_not_seen y _ _ hy
      intro hk
      exact this (by rw [← hk]; exact List.mem_cons_self _ _)

/-- Claim C5 (corrected): deduplication groups entries by id keeping the
preferred (non-`\x7b\x7d`, longer) arguments — a grouping whose content is
independent of map order — emits the groups in the Go map's randomized range
order followed by the id-less entries, and then applies the name+arguments
deduplication to ALL entries, not only to those without an id.  Consequently,
for every map range order, the output never contains two entries with the
same name+arguments key; two tool calls carrying distinct non-empty ids but
equal names and argument strings collapse to a single entry — whichever the
randomized order ranges first. -/
theorem c5_deduplicate_tool_calls :
    (∀ (order : List String) (l : List ParserToolCall),
      List.Pairwise (fun a b => nameArgsKey a ≠ nameArgsKey b)
        (DeduplicateToolCallsOrd order l)) ∧
    (∀ a b : ParserToolCall, a.id ≠ "" → b.id ≠ "" → a.id ≠ b.id →
      nameArgsKey a = nameArgsKey b →
      DeduplicateToolCallsOrd [a.id, b.id] [a, b] = [a] ∧
      DeduplicateToolCallsOrd [b.id, a.id] [a, b] = [b]) := by
  constructor
  · intro order l
    unfold DeduplicateToolCallsOrd
    split
    · simp
    · exact dedupByNameArgs_pairwise [] _
  · intro a b ha hb hne hkey
    have hfold : [a, b].foldl byIdStep [] = [(a.id, a), (b.id, b)] := by
      simp [byIdStep, alistFind, ha, hb, hne]
    have hfilter : [a, b].filter (fun tc => tc.id = "") = [] := by
      simp [List.filter, ha, hb]
    constructor
    · unfold DeduplicateToolCallsOrd
      simp only [if_neg (by simp : ¬([a, b] = []))]
      rw [hfold, hfilter]
      have hfm : [a.id, b.id].filterMap
          (fun k => alistFind k [(a.id, a), (b.id, b)]) = [a, b] := by
        simp [List.filterMap_cons, alistFind, hne]
      rw [hfm]
      simp [dedupByNameArgs, hkey]
    · unfold DeduplicateToolCallsOrd
      simp only [if_neg (by simp : ¬([a, b] = []))]
      rw [hfold, hfilter]
      have hfm : [b.id, a.id].filterMap
          (fun k => alistFind k [(a.id, a), (b.id, b)]) = [b, a] := by
        simp [List.filterMap_cons, alistFind, hne, Ne.symm hne]
      rw [hfm]
      simp [dedupByNameArgs, hkey]

theorem c5_witness :
    (("ga" : String) ≠ "" ∧ ("gb" : String) ≠ "" ∧ ("ga" : String) ≠ "gb" ∧
      nameArgsKey { id := "ga", ctype := "function",
                    function := { name := "f", arguments := "\x7b\"k\":2\x7d" } } =
        nameArgsKey { id := "gb", ctype := "function",
                      function := { name := "f", arguments := "\x7b\"k\":2\x7d" } }) ∧
    DeduplicateToolCallsOrd ["ga", "gb"]
        [{ id := "ga", ctype := "function",
           function := { name := "f", arguments := "\x7b\"k\":2\x7d" } },
         { id := "gb", ctype := "function",
           function := { name := "f", arguments := "\x7b\"k\":2\x7d" } }] =
      [{ id := "ga", ctype := "function",
         function := { name := "f", arguments := "\x7b\"k\":2\x7d" } }] ∧
    DeduplicateToolCallsOrd ["gb", "ga"]
        [{ id := "ga", ctype := "function",
           function := { name := "f", arguments := "\x7b\"k\":2\x7d" } },
         { id := "gb", ctype := "function",
           function := { name := "f", arguments := "\x7b\"k\":2\x7d" } }] =
      [{ id := "gb", ctype := "function",
         function := { name := "f", arguments := "\x7b\"k\":2\x7d" } }] := by
  refine ⟨by decide, ?_, ?_⟩
  · exact (c5_deduplicate_tool_calls.2
      { id := "ga", ctype := "function",
        function := { name := "f", arguments := "\x7b\"k\":2\x7d" } }
      { id := "gb", ctype := "function",
        function := { name := "f", arguments := "\x7b\"k\":2\x7d" } }
      (by decide) (by decide) (by decide) (by decide)).1
  · exact (c5_deduplicate_tool_calls.2
      { id := "ga", ctype := "function",
        function := { name := "f", arguments := "\x7b\"k\":2\x7d" } }
      { id := "gb", ctype := "function",
        function := { name := "f", arguments := "\x7b\"k\":2\x7d" } }
      (by decide) (by decide) (by decide) (by decide)).2

/-- Claim C5, counterexample: two tool calls carrying distinct non-empty ids
`a` and `b` and equal names and argument strings are NOT both present in the
deduplicated output, under either of the two possible range orders of the
two-key byID map (`["a","b"]` and `["b","a"]` are its only permutations):
the final name+arguments pass keeps exactly one of them. -/
theorem c5_counterexample :
    DeduplicateToolCallsOrd ["a", "b"]
        [{ id := "a", ctype := "function",
           function := { name := "f", arguments := "\x7b\"x\":1\x7d" } },
         { id := "b", ctype := "function",
           function := { name := "f", arguments := "\x7b\"x\":1\x7d" } }] =
      [{ id := "a", ctype := "function",
         function := { name := "f", arguments := "\x7b\"x\":1\x7d" } }] ∧
    DeduplicateToolCallsOrd ["b", "a"]
        [{ id := "a", ctype := "function",
           function := { name := "f", arguments := "\x7b\"x\":1\x7d" } },
         { id := "b", ctype := "function",
           function := { name := "f", arguments := "\x7b\"x\":1\x7d" } }] =
      [{ id := "b", ctype := "function",
         function := { name := "f", arguments := "\x7b\"x\":1\x7d" } }] := by
  decide

/-! ## C6: finalized tool-call arguments always parse as JSON -/

theorem finalizeToolCall_argsParseOk {α : Type} (codec : JsonCodec α)
    (hround : ∀ v : α, (codec.parse (codec.serialize v)).isSome = true)
    (hempty : (codec.parse "\x7b\x7d").isSome = true)
    (p : AwsEventStreamParser) (h : argsParseOk codec p) :
    argsParseOk codec (finalizeToolCall codec p) := by
  unfold finalizeToolCall
  cases hc : p.currentToolCall with
  | none => exact h
  | some tc =>
    intro x hx
    simp only [List.mem_append, List.mem_singleton] at hx
    rcases hx with hx | hx
    · exact h x hx
    · subst hx
      simp only
      split
      · split
        · next v hv => exact hround v
        · exact hempty
      · exact hempty

theorem processEvent_argsParseOk {α : Type} (codec : JsonCodec α)
    (hround : ∀ v : α, (codec.parse (codec.serialize v)).isSome = true)
    (hempty : (codec.parse "\x7b\x7d").isSome = true)
    (p : AwsEventStreamParser) (ev : UpstreamPayload α) (h : argsParseOk codec p) :
    argsParseOk codec (processEvent codec p ev).2 := by
  have hmaybe : ∀ q, argsParseOk codec q →
      argsParseOk codec
        (if q.currentToolCall.isSome = true then finalizeToolCall codec q else q) := by
    intro q hq
    split
    · exact finalizeToolCall_argsParseOk codec hround hempty q hq
    · exact hq
  cases ev with
  | contentEv content followupPrompt =>
    show argsParseOk codec (processContentEvent p content followupPrompt).2
    unfold processContentEvent
    split
    · exact h
    · split
      · exact h
      · exact fun x hx => h x hx
  | toolStartEv name toolUseId input stop =>
    show argsParseOk codec
      (processToolStartEvent codec p name toolUseId input stop).2
    unfold processToolStartEvent
    dsimp only
    split
    · apply finalizeToolCall_argsParseOk codec hround hempty
      exact fun x hx => (hmaybe p h) x hx
    · exact fun x hx => (hmaybe p h) x hx
  | toolInputEv input =>
    show argsParseOk codec (processToolInputEvent codec p input).2
    unfold processToolInputEvent
    split
    · exact h
    · exact fun x hx => h x hx
  | toolStopEv stop =>
    show argsParseOk codec (processToolStopEvent codec p stop).2
    unfold processToolStopEvent
    split
    · exact finalizeToolCall_argsParseOk codec hround hempty p h
    · exact h
  | usageEv u => exact h
  | contextUsageEv q => exact h

theorem runParser_argsParseOk {α : Type} (codec : JsonCodec α)
    (hround : ∀ v : α, (codec.parse (codec.serialize v)).isSome = true)
    (hempty : (codec.parse "\x7b\x7d").isSome = true)
    (payloads : List (UpstreamPayload α)) :
    argsParseOk codec (runParser codec payloads) := by
  unfold runParser
  have hgen : ∀ (l : List (UpstreamPayload α)) (p : AwsEventStreamParser),
      argsParseOk codec p →
      argsParseOk codec (l.foldl (fun p ev => (processEvent codec p ev).2) p) := by
    intro l
    induction l with
    | nil => intro p h; exact h
    | cons ev t ih =>
      intro p h
      exact ih _ (processEvent_argsParseOk codec hround hempty p ev h)
  exact hgen payloads newAwsEventStreamParser (by intro x hx; cases hx)

theorem mem_alistReplace (kv : String × ParserToolCall) (k : String)
    (v : ParserToolCall) (m : List (String × ParserToolCall))
    (h : kv ∈ alistReplace k v m) : kv ∈ m ∨ kv = (k, v) := by
  induction m with
  | nil => cases h
  | cons kv' t ih =>
    unfold alistReplace at h
    split at h
    · rcases List.mem_cons.mp h with h | h
      · exact Or.inr h
      · exact Or.inl (List.mem_cons_of_mem _ h)
    · rcases List.mem_cons.mp h with h | h
      · exact Or.inl (h ▸ List.mem_cons_self _ _)
      · rcases ih h with h | h
        · exact Or.inl (List.mem_cons_of_mem _ h)
        · exact Or.inr h

theorem mem_byIdStep (kv : String × ParserToolCall)
    (m : List (String × ParserToolCall)) (tc : ParserToolCall)
    (h : kv ∈ byIdStep m tc) : kv ∈ m ∨ kv.2 = tc := by
  unfold byIdStep at h
  split at h
  · exact Or.inl h
  · split at h
    · rcases List.mem_append.mp h with h | h
      · exact Or.inl h
      · right
        cases List.mem_singleton.mp h
        rfl
    · split at h
      · rcases mem_alistReplace kv _ _ m h with h | h
        · exact Or.inl h
        · right
          cases h
          rfl
      · exact Or.inl h

theorem mem_foldl_byIdStep (kv : String × ParserToolCall) :
    ∀ (l : List ParserToolCall) (m : List (String × ParserToolCall)),
      kv ∈ l.foldl byIdStep m → kv ∈ m ∨ kv.2 ∈ l := by
  intro l
  induction l with
  | nil => intro m h; exact Or.inl h
  | cons tc t ih =>
    intro m h
    rcases ih (byIdStep m tc) h with h | h
    · rcases mem_byIdStep kv m tc h with h | h
      · exact Or.inl h
      · exact Or.inr (by rw [h]; exact List.mem_cons_self _ _)
    · exact Or.inr (List.mem_cons_of_mem _ h)

theorem mem_deduplicateToolCalls_sub (x : ParserToolCall)
    (l : List ParserToolCall) (h : x ∈ DeduplicateToolCalls l) : x ∈ l := by
  unfold DeduplicateToolCalls at h
  split at h
  · cases h
  · have h1 := mem_dedupByNameArgs_sub x _ _ h
    rcases List.mem_append.mp h1 with h2 | h2
    · rcases List.mem_map.mp h2 with ⟨kv, hkv, hx⟩
      rcases mem_foldl_byIdStep kv l [] hkv with h3 | h3
      · cases h3
      · exact hx ▸ h3
    · exact List.mem_filter.mp h2 |>.1

/-- Claim C6: for every sequence of parser inputs, every finalized tool call
(every element of the list returned by GetToolCalls) has an arguments string
the JSON codec accepts; at finalization an accumulated arguments string that
is empty or does not parse is replaced by the literal `\x7b\x7d`.  The codec
hypotheses state the two properties of `encoding/json` the code relies on:
re-serialized values parse, and `\x7b\x7d` parses. -/
theorem c6_finalized_arguments_parse {α : Type} (codec : JsonCodec α)
    (hround : ∀ v : α, (codec.parse (codec.serialize v)).isSome = true)
    (hempty : (codec.parse "\x7b\x7d").isSome = true)
    (payloads : List (UpstreamPayload α)) :
    (∀ tc ∈ GetToolCalls codec (runParser codec payloads),
      (codec.parse tc.function.arguments).isSome = true) ∧
    (∀ (p : AwsEventStreamParser) (tc : ParserToolCall),
      p.currentToolCall = some tc →
      (tc.function.arguments = "" ∨ codec.parse tc.function.arguments = none) →
      (finalizeToolCall codec p).toolCalls = p.toolCalls ++
        [{ id := if tc.id = "" then genToolCallID p.idCounter else tc.id,
           ctype := tc.ctype,
           function := { name := tc.function.name, arguments := "\x7b\x7d" } }]) := by
  constructor
  · intro tc htc
    unfold GetToolCalls at htc
    have hok : argsParseOk codec
        (if (runParser codec payloads).currentToolCall.isSome = true then
          finalizeToolCall codec (runParser codec payloads)
        else runParser codec payloads) := by
      split
      · exact finalizeToolCall_argsParseOk codec hround hempty _
          (runParser_argsParseOk codec hround hempty payloads)
      · exact runParser_argsParseOk codec hround hempty payloads
    exact hok tc (mem_deduplicateToolCalls_sub tc _ htc)
  · intro p tc hcur hbad
    unfold finalizeToolCall
    rw [hcur]
    rcases hbad with hbad | hbad
    · simp [hbad]
    · by_cases hemp : tc.function.arguments = ""
      · simp [hemp]
      · simp [hemp, hbad]

theorem c6_witness :
    (∀ v : Unit,
      ((JsonCodec.mk (fun s => if s = "null" ∨ s = "\x7b\x7d" then some () else none)
          (fun _ => "null") : JsonCodec Unit).parse
        ((JsonCodec.mk (fun s => if s = "null" ∨ s = "\x7b\x7d" then some () else none)
          (fun _ => "null") : JsonCodec Unit).serialize v)).isSome = true) ∧
    (((JsonCodec.mk (fun s => if s = "null" ∨ s = "\x7b\x7d" then some () else none)
          (fun _ => "null") : JsonCodec Unit).parse "\x7b\x7d").isSome = true) ∧
    (∀ tc ∈ GetToolCalls
        (JsonCodec.mk (fun s => if s = "null" ∨ s = "\x7b\x7d" then some () else none)
          (fun _ => "null") : JsonCodec Unit)
        (runParser
          (JsonCodec.mk (fun s => if s = "null" ∨ s = "\x7b\x7d" then some () else none)
            (fun _ => "null") : JsonCodec Unit)
          [.toolStartEv "get_weather" "t1" (.istr "not json") false, .toolStopEv true]),
      (((JsonCodec.mk (fun s => if s = "null" ∨ s = "\x7b\x7d" then some () else none)
          (fun _ => "null") : JsonCodec Unit)).parse tc.function.arguments).isSome = true) := by
  refine ⟨fun v => rfl, rfl, ?_⟩
  exact (c6_finalized_arguments_parse
    (JsonCodec.mk (fun s => if s = "null" ∨ s = "\x7b\x7d" then some () else none)
      (fun _ => "null"))
    (fun v => rfl) rfl
    [.toolStartEv "get_weather" "t1" (.istr "not json") false, .toolStopEv true]).1

/-! ## C1: shaper pipeline invariants -/

theorem mergeRev_ne_nil (msgs : List UnifiedMessage) :
    ∀ acc, (acc ≠ [] ∨ msgs ≠ []) → mergeRev acc msgs ≠ [] := by
  induction msgs with
  | nil =>
    intro acc h
    rcases h with h | h
    · simpa [mergeRev] using h
    · exact absurd rfl h
  | cons m t ih =>
    intro acc _
    cases acc with
    | nil => exact ih [m] (Or.inl (by simp))
    | cons last rest =>
      show (if m.role = last.role then mergeRev (mergeTwo last m :: rest) t
            else mergeRev (m :: last :: rest) t) ≠ []
      split
      · exact ih _ (Or.inl (by simp))
      · exact ih _ (Or.inl (by simp))

theorem mergeRev_chain (msgs : List UnifiedMessage) :
    ∀ acc, List.Chain' (fun a b : UnifiedMessage => a.role ≠ b.role) acc →
      List.Chain' (fun a b : UnifiedMessage => a.role ≠ b.role) (mergeRev acc msgs) := by
  induction msgs with
  | nil =>
    intro acc h
    show List.Chain' _ acc.reverse
    rw [List.chain'_reverse]
    exact h.imp fun a b hab => Ne.symm hab
  | cons m t ih =>
    intro acc h
    cases acc with
    | nil => exact ih [m] (List.chain'_singleton m)
    | cons last rest =>
      show List.Chain' _ (if m.role = last.role then mergeRev (mergeTwo last m :: rest) t
            else mergeRev (m :: last :: rest) t)
      split
      · apply ih
        rw [List.chain'_cons'] at h ⊢
        exact ⟨fun y hy => h.1 y hy, h.2⟩
      · next hne =>
        apply ih
        exact List.chain'_cons.mpr ⟨hne, h⟩

theorem ensureFirst_shape (msgs : List UnifiedMessage) (h : msgs ≠ []) :
    ∃ m t, EnsureFirstMessageIsUser msgs = m :: t ∧ m.role = "user" := by
  cases msgs with
  | nil => exact absurd rfl h
  | cons m t =>
    by_cases hu : m.role = "user"
    · exact ⟨m, t, by simp [EnsureFirstMessageIsUser, hu], hu⟩
    · exact ⟨synthUserMessage, m :: t, by simp [EnsureFirstMessageIsUser, hu], rfl⟩

theorem ensureFirst_chain (msgs : List UnifiedMessage)
    (h : List.Chain' (fun a b : UnifiedMessage => a.role ≠ b.role) msgs) :
    List.Chain' (fun a b : UnifiedMessage => a.role ≠ b.role)
      (EnsureFirstMessageIsUser msgs) := by
  cases msgs with
  | nil => exact h
  | cons m t =>
    by_cases hu : m.role = "user"
    · simpa [EnsureFirstMessageIsUser, hu] using h
    · have heq : EnsureFirstMessageIsUser (m :: t) = synthUserMessage :: m :: t := by
        simp [EnsureFirstMessageIsUser, hu]
      rw [heq]
      exact List.chain'_cons.mpr ⟨fun hc => hu (Eq.symm hc), h⟩

theorem normalizeRole_role_cases (m : UnifiedMessage) :
    (normalizeRole m).role = "user" ∨ (normalizeRole m).role = "assistant" := by
  unfold normalizeRole
  by_cases hc : m.role ≠ "user" ∧ m.role ≠ "assistant"
  · rw [if_pos hc]
    exact Or.inl rfl
  · rw [if_neg hc]
    rcases not_and_or.mp hc with hc | hc
    · exact Or.inl (not_not.mp hc)
    · exact Or.inr (not_not.mp hc)

theorem normalizeRole_user (m : UnifiedMessage) (h : m.role = "user") :
    (normalizeRole m).role = "user" := by
  unfold normalizeRole
  rw [if_neg (by simp [h])]
  exact h

theorem normalizeRole_assistant (m : UnifiedMessage)
    (h : (normalizeRole m).role = "assistant") : m.role = "assistant" := by
  unfold normalizeRole at h
  by_cases hc : m.role ≠ "user" ∧ m.role ≠ "assistant"
  · rw [if_pos hc] at h
    simp at h
  · rwa [if_neg hc] at h

theorem normalizeMessageRoles_noAdjAssistant (msgs : List UnifiedMessage)
    (h : List.Chain' (fun a b : UnifiedMessage => a.role ≠ b.role) msgs) :
    List.Chain' (fun a b : UnifiedMessage =>
      ¬(a.role = "assistant" ∧ b.role = "assistant")) (NormalizeMessageRoles msgs) := by
  unfold NormalizeMessageRoles
  rw [List.chain'_map]
  refine h.imp ?_
  intro a b hab hcon
  exact hab (by
    rw [normalizeRole_assistant a hcon.1, normalizeRole_assistant b hcon.2])

theorem alternGo_roles (rest : List UnifiedMessage) :
    ∀ prev, (∀ x ∈ rest, x.role = "user" ∨ x.role = "assistant") →
      ∀ x ∈ alternGo prev rest, x.role = "user" ∨ x.role = "assistant" := by
  induction rest with
  | nil => intro prev _ x hx; cases hx
  | cons m t ih =>
    intro prev hall x hx
    by_cases hc : m.role = "user" ∧ prev.role = "user"
    · have heq : alternGo prev (m :: t) = synthAssistantMessage :: m :: alternGo m t := by
        simp [alternGo, hc]
      rw [heq] at hx
      rcases List.mem_cons.mp hx with hx | hx
      · subst hx
        exact Or.inr rfl
      · rcases List.mem_cons.mp hx with hx | hx
        · rw [hx]
          exact hall m (List.mem_cons_self _ _)
        · exact ih m (fun y hy => hall y (List.mem_cons_of_mem _ hy)) x hx
    · have heq : alternGo prev (m :: t) = m :: alternGo m t := by
        simp [alternGo, hc]
      rw [heq] at hx
      rcases List.mem_cons.mp hx with hx | hx
      · rw [hx]
        exact hall m (List.mem_cons_self _ _)
      · exact ih m (fun y hy => hall y (List.mem_cons_of_mem _ hy)) x hx

theorem alternGo_chain (rest : List UnifiedMessage) :
    ∀ prev, (prev.role = "user" ∨ prev.role = "assistant") →
      (∀ x ∈ rest, x.role = "user" ∨ x.role = "assistant") →
      List.Chain' (fun a b : UnifiedMessage =>
        ¬(a.role = "assistant" ∧ b.role = "assistant")) (prev :: rest) →
      List.Chain' (fun a b : UnifiedMessage => a.role ≠ b.role)
        (prev :: alternGo prev rest) := by
  induction rest with
  | nil => intro prev _ _ _; exact List.chain'_singleton prev
  | cons m t ih =>
    intro prev hprev hall hchain
    have hm : m.role = "user" ∨ m.role = "assistant" := hall m (List.mem_cons_self _ _)
    have hallt : ∀ x ∈ t, x.role = "user" ∨ x.role = "assistant" :=
      fun y hy => hall y (List.mem_cons_of_mem _ hy)
    have hchain_mt : List.Chain' (fun a b : UnifiedMessage =>
        ¬(a.role = "assistant" ∧ b.role = "assistant")) (m :: t) :=
      (List.chain'_cons.mp hchain).2
    have hrec := ih m hm hallt hchain_mt
    unfold alternGo
    split
    · next hc =>
      refine List.chain'_cons.mpr ⟨?_, List.chain'_cons.mpr ⟨?_, hrec⟩⟩
      · rw [hc.2]
        decide
      · show synthAssistantMessage.role ≠ m.role
        rw [hc.1]
        decide
    · next hc =>
      refine List.chain'_cons.mpr ⟨?_, hrec⟩
      rcases hm with hmu | hma
      · have hpu : ¬ prev.role = "user" := fun hp => hc ⟨hmu, hp⟩
        rw [hmu]
        exact hpu
      · have hpa : ¬ prev.role = "assistant" :=
          fun hp => (List.chain'_cons.mp hchain).1 ⟨hp, hma⟩
        rcases hprev with hpu | hpc
        · rw [hpu, hma]
          decide
        · exact absurd hpc hpa

/-- Claim C1: for every non-empty input list of unified messages, the message
sequence after the BuildKiroPayload shaping pipeline (tool stripping,
MergeAdjacentMessages, EnsureFirstMessageIsUser, NormalizeMessageRoles,
EnsureAlternatingRoles) has length at least 1, its first message has role
`user`, no two adjacent messages share a role, and every role is `user` or
`assistant` — in particular this holds whenever BuildKiroPayload produces a
payload. -/
theorem c1_shaper_invariants (hasTools : Bool) (messages : List UnifiedMessage)
    (h : messages ≠ []) :
    1 ≤ (buildKiroPayloadMessages hasTools messages).length ∧
    ((buildKiroPayloadMessages hasTools messages).head?.map (fun m => m.role)) =
      some "user" ∧
    List.Chain' (fun a b : UnifiedMessage => a.role ≠ b.role)
      (buildKiroPayloadMessages hasTools messages) ∧
    (∀ m ∈ buildKiroPayloadMessages hasTools messages,
      m.role = "user" ∨ m.role = "assistant") := by
  have h0 : (if hasTools then messages else (StripAllToolContent messages).1) ≠ [] := by
    split
    · exact h
    · simpa [StripAllToolContent] using h
  have h1ne : MergeAdjacentMessages
      (if hasTools then messages else (StripAllToolContent messages).1) ≠ [] :=
    mergeRev_ne_nil _ [] (Or.inr h0)
  have h1chain : List.Chain' (fun a b : UnifiedMessage => a.role ≠ b.role)
      (MergeAdjacentMessages
        (if hasTools then messages else (StripAllToolContent messages).1)) :=
    mergeRev_chain _ [] (by simp)
  obtain ⟨m2, t2, h2eq, h2u⟩ := ensureFirst_shape _ h1ne
  have h2chain := ensureFirst_chain _ h1chain
  rw [h2eq] at h2chain
  -- after role normalization
  have h3eq : NormalizeMessageRoles (m2 :: t2) =
      normalizeRole m2 :: NormalizeMessageRoles t2 := rfl
  have h3u : (normalizeRole m2).role = "user" := normalizeRole_user m2 h2u
  have h3ua : ∀ x ∈ NormalizeMessageRoles (m2 :: t2),
      x.role = "user" ∨ x.role = "assistant" := by
    intro x hx
    rcases List.mem_map.mp hx with ⟨y, _, hy⟩
    exact hy ▸ normalizeRole_role_cases y
  have h3chain := normalizeMessageRoles_noAdjAssistant _ h2chain
  rw [h3eq] at h3chain h3ua
  -- after alternation enforcement
  have h4chain := alternGo_chain (NormalizeMessageRoles t2) (normalizeRole m2)
    (Or.inl h3u) (fun x hx => h3ua x (List.mem_cons_of_mem _ hx)) h3chain
  have h4roles := alternGo_roles (NormalizeMessageRoles t2) (normalizeRole m2)
    (fun x hx => h3ua x (List.mem_cons_of_mem _ hx))
  have hfinal : buildKiroPayloadMessages hasTools messages =
      EnsureAlternatingRoles (NormalizeMessageRoles (EnsureFirstMessageIsUser
        (MergeAdjacentMessages
          (if hasTools then messages else (StripAllToolContent messages).1)))) := rfl
  have hfinal2 : EnsureAlternatingRoles (normalizeRole m2 :: NormalizeMessageRoles t2) =
      normalizeRole m2 :: alternGo (normalizeRole m2) (NormalizeMessageRoles t2) := rfl
  rw [hfinal, h2eq, h3eq, hfinal2]
  refine ⟨by simp, by simp [h3u], h4chain, ?_⟩
  intro x hx
  rcases List.mem_cons.mp hx with hx | hx
  · subst hx
    exact Or.inl h3u
  · exact h4roles x hx

theorem c1_witness :
    ([({ role := "system", content := .str "S", toolCalls := [], toolResults := [],
         images := [] } : UnifiedMessage)] ≠ []) ∧
    (((buildKiroPayloadMessages false
        [{ role := "system", content := .str "S", toolCalls := [], toolResults := [],
           images := [] }]).head?.map (fun m => m.role)) = some "user" ∧
     (∀ m ∈ buildKiroPayloadMessages false
        [{ role := "system", content := .str "S", toolCalls := [], toolResults := [],
           images := [] }], m.role = "user" ∨ m.role = "assistant")) := by
  refine ⟨by simp, ?_, ?_⟩
  · exact (c1_shaper_invariants false
      [{ role := "system", content := .str "S", toolCalls := [], toolResults := [],
         images := [] }] (by simp)).2.1
  · exact (c1_shaper_invariants false
      [{ role := "system", content := .str "S", toolCalls := [], toolResults := [],
         images := [] }] (by simp)).2.2.2

/-! ## C3 and C9: helper lemmas on characters, segments and families -/

theorem isDigitC_ne_dash {c : Char} (h : isDigitC c = true) : c ≠ '-' := by
  intro hc
  subst hc
  simp [isDigitC] at h

theorem isDigitC_ne_dot {c : Char} (h : isDigitC c = true) : c ≠ '.' := by
  intro hc
  subst hc
  simp [isDigitC] at h

theorem isDigitC_not_hso {c : Char} (h : isDigitC c = true) :
    c ≠ 'h' ∧ c ≠ 's' ∧ c ≠ 'o' := by
  refine ⟨?_, ?_, ?_⟩ <;> intro hc <;> subst hc <;> simp [isDigitC] at h

theorem toLower_of_digit {c : Char} (h : isDigitC c = true) : c.toLower = c := by
  simp only [isDigitC, Bool.and_eq_true, decide_eq_true_eq] at h
  unfold Char.toLower
  rw [if_neg (by omega)]

theorem digits1_all {l : List Char} (h : digits1 l = true) :
    ∀ c ∈ l, isDigitC c = true := by
  simp only [digits1, Bool.and_eq_true, List.all_eq_true] at h
  exact h.2

theorem digits1_ne_nil {l : List Char} (h : digits1 l = true) : l ≠ [] := by
  simp only [digits1, Bool.and_eq_true] at h
  simpa using h.1

theorem digits1_of_dotted_false (a b : List Char) : digits1 (a ++ '.' :: b) = false := by
  by_contra h
  rw [Bool.not_eq_false] at h
  have := digits1_all h '.' (by simp)
  simp [isDigitC] at this

theorem isDate8_of_dotted_false (a b : List Char) : isDate8 (a ++ '.' :: b) = false := by
  by_contra h
  rw [Bool.not_eq_false] at h
  simp only [isDate8, Bool.and_eq_true, List.all_eq_true] at h
  have := h.2 '.' (by simp)
  simp [isDigitC] at this

theorem isFamSeg_cases {f : List Char} (h : isFamSeg f = true) :
    f = "haiku".data ∨ f = "sonnet".data ∨ f = "opus".data := by
  simp only [isFamSeg, Bool.or_eq_true, beq_iff_eq] at h
  rcases h with (h | h) | h
  · exact Or.inl h
  · exact Or.inr (Or.inl h)
  · exact Or.inr (Or.inr h)

theorem isFamSeg_of_dotted_false (a b : List Char) (ha : digits1 a = true) :
    isFamSeg (a ++ '.' :: b) = false := by
  have hne : ∀ w : List Char, w ≠ [] → isDigitC w.headI = false →
      a ++ '.' :: b ≠ w := by
    intro w hw hdig heq
    cases a with
    | nil => exact absurd rfl (digits1_ne_nil ha)
    | cons c t =>
      cases w with
      | nil => exact hw rfl
      | cons wc wt =>
        have hc : c = wc := by
          have := congrArg List.headI heq
          simpa using this
        have := digits1_all ha c (by simp)
        rw [hc] at this
        simp [List.headI] at hdig
        rw [this] at hdig
        cases hdig
  simp only [isFamSeg, Bool.or_eq_false_iff, beq_eq_false_iff_ne]
  exact ⟨⟨hne "haiku".data (by decide) (by decide),
    hne "sonnet".data (by decide) (by decide)⟩,
    hne "opus".data (by decide) (by decide)⟩

theorem isDotted_decomp {l : List Char} (h : isDotted l = true) :
    ∃ a b, l = a ++ '.' :: b ∧ digits1 a = true ∧ digits1 b = true := by
  unfold isDotted parseDotted at h
  split at h
  · next a rest hspan =>
    split at h
    · next hguard =>
      refine ⟨a, rest, ?_, ?_, ?_⟩
      · have h1 : l.takeWhile isDigitC = a ∧ l.dropWhile isDigitC = '.' :: rest := by
          rw [List.span_eq_take_drop isDigitC] at hspan
          exact ⟨congrArg Prod.fst hspan, congrArg Prod.snd hspan⟩
        calc l = l.takeWhile isDigitC ++ l.dropWhile isDigitC :=
              (List.takeWhile_append_dropWhile _ _).symm
          _ = a ++ '.' :: rest := by rw [h1.1, h1.2]
      · simp only [Bool.and_eq_true] at hguard
        have hmem : ∀ c ∈ a, isDigitC c = true := by
          intro c hc
          have h1 : l.takeWhile isDigitC = a := by
            rw [List.span_eq_take_drop isDigitC] at hspan
            exact congrArg Prod.fst hspan
          exact List.mem_takeWhile_imp (h1 ▸ hc)
        simp only [digits1, Bool.and_eq_true, List.all_eq_true]
        refine ⟨by simpa using hguard.1, hmem⟩
      · simp only [Bool.and_eq_true] at hguard
        exact hguard.2
    · cases h
  · cases h

theorem dotted_chars_not_hso {l : List Char} (h : isDotted l = true) :
    ∀ c ∈ l, c ≠ 'h' ∧ c ≠ 's' ∧ c ≠ 'o' := by
  obtain ⟨a, b, hl, ha, hb⟩ := isDotted_decomp h
  subst hl
  intro c hc
  rcases List.mem_append.mp hc with hc | hc
  · exact isDigitC_not_hso (digits1_all ha c hc)
  · rcases List.mem_cons.mp hc with hc | hc
    · subst hc; exact ⟨by decide, by decide, by decide⟩
    · exact isDigitC_not_hso (digits1_all hb c hc)

theorem dotted_no_dash {l : List Char} (h : isDotted l = true) :
    ∀ c ∈ l, c ≠ '-' := by
  obtain ⟨a, b, hl, ha, hb⟩ := isDotted_decomp h
  subst hl
  intro c hc
  rcases List.mem_append.mp hc with hc | hc
  · exact isDigitC_ne_dash (digits1_all ha c hc)
  · rcases List.mem_cons.mp hc with hc | hc
    · subst hc; decide
    · exact isDigitC_ne_dash (digits1_all hb c hc)

/-! splitDash and joinDash -/

theorem splitDash_ne_nil (l : List Char) : splitDash l ≠ [] := by
  cases l with
  | nil => simp [splitDash]
  | cons c t =>
    unfold splitDash
    split
    · simp
    · split
      · simp
      · simp

theorem splitDash_no_dash (l : List Char) (h : ∀ c ∈ l, c ≠ '-') :
    splitDash l = [l] := by
  induction l with
  | nil => rfl
  | cons c t ih =>
    unfold splitDash
    rw [if_neg (h c (by simp))]
    rw [ih (fun x hx => h x (by simp [hx]))]

theorem splitDash_append (a r : List Char) (h : ∀ c ∈ a, c ≠ '-') :
    splitDash (a ++ '-' :: r) = a :: splitDash r := by
  induction a with
  | nil => simp [splitDash]
  | cons c t ih =>
    show splitDash (c :: (t ++ '-' :: r)) = (c :: t) :: splitDash r
    conv_lhs => rw [splitDash]
    rw [if_neg (h c (by simp))]
    rw [ih (fun x hx => h x (by simp [hx]))]

theorem joinDash_splitDash (l : List Char) : joinDash (splitDash l) = l := by
  induction l with
  | nil => rfl
  | cons c t ih =>
    obtain ⟨s, rest, hsr⟩ : ∃ s rest, splitDash t = s :: rest := by
      cases hst : splitDash t with
      | nil => exact absurd hst (splitDash_ne_nil t)
      | cons s rest => exact ⟨s, rest, rfl⟩
    rw [hsr] at ih
    unfold splitDash
    split
    · next hc =>
      subst hc
      rw [hsr]
      show joinDash ([] :: s :: rest) = '-' :: t
      have h1 : joinDash ([] :: s :: rest) = '-' :: joinDash (s :: rest) := rfl
      rw [h1, ih]
    · rw [hsr]
      cases rest with
      | nil =>
        show joinDash [c :: s] = c :: t
        have h1 : joinDash [c :: s] = c :: s := rfl
        have h2 : joinDash [s] = s := rfl
        rw [h2] at ih
        rw [h1, ih]
      | cons s2 rest2 =>
        show joinDash ((c :: s) :: s2 :: rest2) = c :: t
        have h1 : joinDash ((c :: s) :: s2 :: rest2) =
            (c :: s) ++ '-' :: joinDash (s2 :: rest2) := rfl
        have h2 : joinDash (s :: s2 :: rest2) = s ++ '-' :: joinDash (s2 :: rest2) := rfl
        rw [h2] at ih
        rw [h1]
        show c :: (s ++ '-' :: joinDash (s2 :: rest2)) = c :: t
        rw [ih]

/-! lowering -/

theorem lowerL_append (a b : List Char) : lowerL (a ++ b) = lowerL a ++ lowerL b :=
  List.map_append _ a b

theorem lowerL_cons (c : Char) (t : List Char) :
    lowerL (c :: t) = c.toLower :: lowerL t := rfl

theorem lowerL_digits {l : List Char} (h : ∀ c ∈ l, isDigitC c = true) :
    lowerL l = l := by
  induction l with
  | nil => rfl
  | cons c t ih =>
    rw [lowerL_cons, toLower_of_digit (h c (by simp)),
      ih (fun x hx => h x (by simp [hx]))]

theorem lowerL_fam {f : List Char} (h : isFamSeg f = true) : lowerL f = f := by
  rcases isFamSeg_cases h with h | h | h <;> subst h <;> rfl

theorem lowerL_dotted {l : List Char} (h : isDotted l = true) : lowerL l = l := by
  obtain ⟨a, b, hl, ha, hb⟩ := isDotted_decomp h
  subst hl
  rw [lowerL_append, lowerL_cons, lowerL_digits (digits1_all ha),
    lowerL_digits (digits1_all hb)]
  rfl

/-! leftmost family occurrence -/

theorem isPrefixOf_self_append (p r : List Char) : p.isPrefixOf (p ++ r) = true := by
  induction p with
  | nil => simp [List.isPrefixOf]
  | cons c t ih => simp [List.isPrefixOf, ih]

theorem famAt_cons_none {c : Char} (t : List Char)
    (h : c ≠ 'h' ∧ c ≠ 's' ∧ c ≠ 'o') : famAt (c :: t) = none := by
  unfold famAt
  rw [if_neg, if_neg, if_neg]
  · show ¬("opus".data.isPrefixOf (c :: t) = true)
    rw [show "opus".data = 'o' :: "pus".data from rfl]
    simp [List.isPrefixOf, Ne.symm h.2.2]
  · show ¬("sonnet".data.isPrefixOf (c :: t) = true)
    rw [show "sonnet".data = 's' :: "onnet".data from rfl]
    simp [List.isPrefixOf, Ne.symm h.2.1]
  · show ¬("haiku".data.isPrefixOf (c :: t) = true)
    rw [show "haiku".data = 'h' :: "aiku".data from rfl]
    simp [List.isPrefixOf, Ne.symm h.1]

theorem extractFamL_append (x r : List Char)
    (h : ∀ c ∈ x, c ≠ 'h' ∧ c ≠ 's' ∧ c ≠ 'o') :
    extractFamL (x ++ r) = extractFamL r := by
  induction x with
  | nil => rfl
  | cons c t ih =>
    show extractFamL (c :: (t ++ r)) = extractFamL r
    conv_lhs => rw [extractFamL]
    rw [famAt_cons_none (t ++ r) (h c (by simp))]
    show extractFamL (t ++ r) = extractFamL r
    exact ih (fun y hy => h y (by simp [hy]))

theorem extractFamL_famStart {f : List Char} (r : List Char)
    (h : isFamSeg f = true) : extractFamL (f ++ r) = f := by
  rcases isFamSeg_cases h with h | h | h <;> subst h
  · show extractFamL ('h' :: ("aiku".data ++ r)) = _
    unfold extractFamL famAt
    rw [if_pos]
    show ("haiku".data).isPrefixOf ("haiku".data ++ r) = true
    exact isPrefixOf_self_append _ _
  · show extractFamL ('s' :: ("onnet".data ++ r)) = _
    unfold extractFamL famAt
    rw [if_neg, if_pos]
    · show ("sonnet".data).isPrefixOf ("sonnet".data ++ r) = true
      exact isPrefixOf_self_append _ _
    · show ¬("haiku".data.isPrefixOf ('s' :: ("onnet".data ++ r)) = true)
      simp [List.isPrefixOf]
  · show extractFamL ('o' :: ("pus".data ++ r)) = _
    unfold extractFamL famAt
    rw [if_neg, if_neg, if_pos]
    · show ("opus".data).isPrefixOf ("opus".data ++ r) = true
      exact isPrefixOf_self_append _ _
    · show ¬("sonnet".data.isPrefixOf ('o' :: ("pus".data ++ r)) = true)
      simp [List.isPrefixOf]
    · show ¬("haiku".data.isPrefixOf ('o' :: ("pus".data ++ r)) = true)
      simp [List.isPrefixOf]

theorem takeWhile_digits_append (a r : List Char)
    (ha : ∀ c ∈ a, isDigitC c = true)
    (hr : ∀ c t, r = c :: t → isDigitC c = false) :
    (a ++ r).takeWhile isDigitC = a := by
  induction a with
  | nil =>
    cases r with
    | nil => rfl
    | cons c t => simp [List.takeWhile_cons, hr c t rfl]
  | cons c t ih =>
    simp [List.takeWhile_cons, ha c (by simp), ih (fun x hx => ha x (by simp [hx]))]

theorem dropWhile_digits_append (a r : List Char)
    (ha : ∀ c ∈ a, isDigitC c = true)
    (hr : ∀ c t, r = c :: t → isDigitC c = false) :
    (a ++ r).dropWhile isDigitC = r := by
  induction a with
  | nil =>
    cases r with
    | nil => rfl
    | cons c t => simp [List.dropWhile_cons, hr c t rfl]
  | cons c t ih =>
    simp [List.dropWhile_cons, ha c (by simp), ih (fun x hx => ha x (by simp [hx]))]

theorem span_digits_append (a r : List Char)
    (ha : ∀ c ∈ a, isDigitC c = true)
    (hr : ∀ c t, r = c :: t → isDigitC c = false) :
    (a ++ r).span isDigitC = (a, r) := by
  rw [List.span_eq_take_drop, takeWhile_digits_append a r ha hr,
    dropWhile_digits_append a r ha hr]

theorem dropPre_self_append (p r : List Char) : dropPre p (p ++ r) = some r := by
  induction p with
  | nil => rfl
  | cons c t ih =>
    show dropPre (c :: t) (c :: (t ++ r)) = some r
    unfold dropPre
    rw [if_pos rfl]
    exact ih

theorem dropPre_sound (p : List Char) :
    ∀ l r, dropPre p l = some r → l = p ++ r := by
  induction p with
  | nil =>
    intro l r h
    cases h
    rfl
  | cons c t ih =>
    intro l r h
    cases l with
    | nil => cases h
    | cons d u =>
      unfold dropPre at h
      split at h
      · next hd =>
        subst hd
        rw [ih u r h]
        rfl
      · cases h

theorem dropFam_eval (f r : List Char) (hf : isFamSeg f = true) :
    dropFam (f ++ r) = some (f, r) := by
  rcases isFamSeg_cases hf with hf | hf | hf <;> subst hf <;> unfold dropFam
  · rw [dropPre_self_append]
  · rw [show dropPre "haiku".data ("sonnet".data ++ r) = none from rfl,
      dropPre_self_append]
  · rw [show dropPre "haiku".data ("opus".data ++ r) = none from rfl,
      show dropPre "sonnet".data ("opus".data ++ r) = none from rfl,
      dropPre_self_append]

theorem dropFam_sound (l : List Char) (f r : List Char)
    (h : dropFam l = some (f, r)) : l = f ++ r ∧ isFamSeg f = true := by
  unfold dropFam at h
  split at h
  · next hp =>
    cases h
    exact ⟨dropPre_sound _ _ _ hp, by decide⟩
  · split at h
    · next hp =>
      cases h
      exact ⟨dropPre_sound _ _ _ hp, by decide⟩
    · split at h
      · next hp =>
        cases h
        exact ⟨dropPre_sound _ _ _ hp, by decide⟩
      · cases h

theorem span_decomp (p : Char → Bool) (l a r : List Char)
    (h : l.span p = (a, r)) : l = a ++ r ∧ ∀ c ∈ a, p c = true := by
  rw [List.span_eq_take_drop] at h
  have h1 : l.takeWhile p = a := congrArg Prod.fst h
  have h2 : l.dropWhile p = r := congrArg Prod.snd h
  constructor
  · rw [← h1, ← h2, List.takeWhile_append_dropWhile]
  · intro c hc
    rw [← h1] at hc
    exact List.mem_takeWhile_imp hc

theorem tryP1_inv (sg : List (List Char)) (o : List Char) (h : tryP1 sg = some o) :
    ∃ f maj mn tail, sg = "claude".data :: f :: maj :: mn :: tail ∧
      isFamSeg f = true ∧ digits1 maj = true ∧ digits1 mn = true ∧
      o = "claude-".data ++ f ++ '-' :: (maj ++ '.' :: mn) := by
  unfold tryP1 at h
  split at h
  · rename_i c f maj mn
    split at h
    · rename_i hc
      cases h
      exact ⟨f, maj, mn, [], by rw [hc.1], hc.2.1, hc.2.2.1, hc.2.2.2.1, rfl⟩
    · cases h
  · rename_i c f maj mn sfx
    split at h
    · rename_i hc
      cases h
      exact ⟨f, maj, mn, [sfx], by rw [hc.1], hc.2.1, hc.2.2.1, hc.2.2.2.1, rfl⟩
    · cases h
  · cases h

theorem tryP2_inv (sg : List (List Char)) (o : List Char) (h : tryP2 sg = some o) :
    ∃ f maj tail, sg = "claude".data :: f :: maj :: tail ∧
      isFamSeg f = true ∧ digits1 maj = true ∧
      o = "claude-".data ++ f ++ '-' :: maj := by
  unfold tryP2 at h
  split at h
  · rename_i c f maj
    split at h
    · rename_i hc
      cases h
      exact ⟨f, maj, [], by rw [hc.1], hc.2.1, hc.2.2, rfl⟩
    · cases h
  · rename_i c f maj d8
    split at h
    · rename_i hc
      cases h
      exact ⟨f, maj, [d8], by rw [hc.1], hc.2.1, hc.2.2.1, rfl⟩
    · cases h
  · cases h

theorem tryP3_inv (sg : List (List Char)) (o : List Char) (h : tryP3 sg = some o) :
    ∃ maj mn f tail, sg = "claude".data :: maj :: mn :: f :: tail ∧
      digits1 maj = true ∧ digits1 mn = true ∧ isFamSeg f = true ∧
      o = "claude-".data ++ maj ++ '.' :: (mn ++ '-' :: f) := by
  unfold tryP3 at h
  split at h
  · rename_i c maj mn f
    split at h
    · rename_i hc
      cases h
      exact ⟨maj, mn, f, [], by rw [hc.1], hc.2.1, hc.2.2.1, hc.2.2.2, rfl⟩
    · cases h
  · rename_i c maj mn f sfx
    split at h
    · rename_i hc
      cases h
      exact ⟨maj, mn, f, [sfx], by rw [hc.1], hc.2.1, hc.2.2.1, hc.2.2.2.1, rfl⟩
    · cases h
  · cases h

theorem tryP4_inv (sg : List (List Char)) (o : List Char) (h : tryP4 sg = some o) :
    (∃ f d8, sg = ["claude".data, f, d8] ∧ isFamSeg f = true ∧ isDate8 d8 = true ∧
      o = "claude-".data ++ f) ∨
    (∃ dd f d8, sg = ["claude".data, dd, f, d8] ∧ isDotted dd = true ∧
      isFamSeg f = true ∧ isDate8 d8 = true ∧ o = "claude-".data ++ dd ++ '-' :: f) ∨
    (∃ f dd d8, sg = ["claude".data, f, dd, d8] ∧ isFamSeg f = true ∧
      isDotted dd = true ∧ isDate8 d8 = true ∧ o = "claude-".data ++ f ++ '-' :: dd) ∨
    (∃ dd f dd2 d8, sg = ["claude".data, dd, f, dd2, d8] ∧ isDotted dd = true ∧
      isFamSeg f = true ∧ isDotted dd2 = true ∧ isDate8 d8 = true ∧
      o = "claude-".data ++ dd ++ '-' :: (f ++ '-' :: dd2)) := by
  unfold tryP4 at h
  split at h
  · rename_i c f d8
    split at h
    · rename_i hc
      cases h
      exact Or.inl ⟨f, d8, by rw [hc.1], hc.2.1, hc.2.2, rfl⟩
    · cases h
  · rename_i c s1 s2 d8
    split at h
    · rename_i hc
      cases h
      rcases hc.2.2 with hcase | hcase
      · exact Or.inr (Or.inl ⟨s1, s2, d8, by rw [hc.1], hcase.1, hcase.2, hc.2.1, rfl⟩)
      · exact Or.inr (Or.inr (Or.inl
          ⟨s1, s2, d8, by rw [hc.1], hcase.1, hcase.2, hc.2.1, rfl⟩))
    · cases h
  · rename_i c dd f dd2 d8
    split at h
    · rename_i hc
      cases h
      exact Or.inr (Or.inr (Or.inr ⟨dd, f, dd2, d8, by rw [hc.1], hc.2.1, hc.2.2.1,
        hc.2.2.2.1, hc.2.2.2.2, rfl⟩))
    · cases h
  · cases h

theorem tryP5_inv (l : List Char) (o : List Char) (h : tryP5 l = some o) :
    ∃ a b f r7, l = "claude-".data ++ a ++ '.' :: (b ++ '-' :: (f ++ '-' :: r7)) ∧
      digits1 a = true ∧ digits1 b = true ∧ isFamSeg f = true ∧
      o = "claude-".data ++ f ++ '-' :: (a ++ '.' :: b) := by
  unfold tryP5 at h
  split at h
  · cases h
  · rename_i r1 hdrop
    split at h
    · rename_i a r2 hspan
      split at h
      · cases h
      · next hane =>
        split at h
        · rename_i r3
          split at h
          · rename_i b r4 hspan2
            split at h
            · cases h
            · next hbne =>
              split at h
              · rename_i r5
                split at h
                · cases h
                · rename_i f r6 hfam
                  split at h
                  · rename_i r7
                    split at h
                    · rename_i hcond
                      cases h
                      obtain ⟨hr5, hffam⟩ := dropFam_sound r5 f ('-' :: r7) hfam
                      have h1 := span_decomp isDigitC r1 a ('.' :: r3) hspan
                      have h2 := span_decomp isDigitC r3 b ('-' :: r5) hspan2
                      have hda : digits1 a = true := by
                        have hae : a.isEmpty = false := by
                          cases hcase : a.isEmpty
                          · rfl
                          · exact absurd hcase hane
                        unfold digits1
                        rw [hae]
                        simp only [Bool.not_false, Bool.true_and, List.all_eq_true]
                        exact fun x hx => h1.2 x hx
                      have hdb : digits1 b = true := by
                        have hbe : b.isEmpty = false := by
                          cases hcase : b.isEmpty
                          · rfl
                          · exact absurd hcase hbne
                        unfold digits1
                        rw [hbe]
                        simp only [Bool.not_false, Bool.true_and, List.all_eq_true]
                        exact fun x hx => h2.2 x hx
                      refine ⟨a, b, f, r7, ?_, hda, hdb, hffam, rfl⟩
                      rw [dropPre_sound _ _ _ hdrop, h1.1, h2.1, hr5]
                      simp [List.append_assoc]
                    · cases h
                  · cases h
              · cases h
        · cases h

theorem hso_append {x y : List Char}
    (hx : ∀ c ∈ x, c ≠ 'h' ∧ c ≠ 's' ∧ c ≠ 'o')
    (hy : ∀ c ∈ y, c ≠ 'h' ∧ c ≠ 's' ∧ c ≠ 'o') :
    ∀ c ∈ x ++ y, c ≠ 'h' ∧ c ≠ 's' ∧ c ≠ 'o' := by
  intro c hc
  rcases List.mem_append.1 hc with h | h
  · exact hx c h
  · exact hy c h

theorem hso_cons {c0 : Char} {y : List Char}
    (h0 : c0 ≠ 'h' ∧ c0 ≠ 's' ∧ c0 ≠ 'o')
    (hy : ∀ c ∈ y, c ≠ 'h' ∧ c ≠ 's' ∧ c ≠ 'o') :
    ∀ c ∈ c0 :: y, c ≠ 'h' ∧ c ≠ 's' ∧ c ≠ 'o' := by
  intro c hc
  rcases List.mem_cons.1 hc with rfl | h
  · exact h0
  · exact hy c h

theorem hso_digits {a : List Char} (ha : digits1 a = true) :
    ∀ c ∈ a, c ≠ 'h' ∧ c ≠ 's' ∧ c ≠ 'o' :=
  fun c hc => isDigitC_not_hso (digits1_all ha c hc)

theorem claude_hso : ∀ c ∈ "claude-".data, c ≠ 'h' ∧ c ≠ 's' ∧ c ≠ 'o' := by decide

theorem dash_hso : ∀ c ∈ ['-'], c ≠ 'h' ∧ c ≠ 's' ∧ c ≠ 'o' := by decide

theorem lowfix_append {x y : List Char} (hx : lowerL x = x) (hy : lowerL y = y) :
    lowerL (x ++ y) = x ++ y := by
  rw [lowerL_append, hx, hy]

theorem lowfix_cons {c : Char} {t : List Char} (hc : Char.toLower c = c)
    (ht : lowerL t = t) : lowerL (c :: t) = c :: t := by
  rw [lowerL_cons, hc, ht]

theorem lowfix_claude : lowerL "claude-".data = "claude-".data := by decide

theorem toLower_dash : ('-' : Char).toLower = '-' := by decide

theorem toLower_dot : ('.' : Char).toLower = '.' := by decide

theorem famSeg_no_dash {f : List Char} (h : isFamSeg f = true) : ∀ c ∈ f, c ≠ '-' := by
  rcases isFamSeg_cases h with h | h | h <;> subst h <;> decide

theorem digits_no_dash {a : List Char} (ha : digits1 a = true) : ∀ c ∈ a, c ≠ '-' :=
  fun c hc => isDigitC_ne_dash (digits1_all ha c hc)

theorem dotted_shape_no_dash {a b : List Char} (ha : digits1 a = true)
    (hb : digits1 b = true) : ∀ c ∈ a ++ '.' :: b, c ≠ '-' := by
  intro c hc
  rcases List.mem_append.1 hc with h | h
  · exact digits_no_dash ha c h
  · rcases List.mem_cons.1 h with rfl | h
    · decide
    · exact digits_no_dash hb c h

theorem joinDash_cons_ex (s : List Char) (t : List (List Char)) :
    ∃ r, joinDash (s :: t) = s ++ r := by
  cases t with
  | nil => exact ⟨[], by simp [joinDash]⟩
  | cons x xs => exact ⟨'-' :: joinDash (x :: xs), rfl⟩

theorem extractFamL_pre_fam (x f r : List Char)
    (hx : ∀ c ∈ x, c ≠ 'h' ∧ c ≠ 's' ∧ c ≠ 'o') (hf : isFamSeg f = true) :
    extractFamL (x ++ (f ++ r)) = f := by
  rw [extractFamL_append x _ hx, extractFamL_famStart _ hf]

theorem normalizeL_eval1 (l o : List Char) (hne : ¬ l = [])
    (h1 : tryP1 (splitDash (lowerL l)) = some o) : normalizeL l = o := by
  unfold normalizeL
  rw [if_neg hne]
  dsimp only
  rw [h1]

theorem normalizeL_eval2 (l o : List Char) (hne : ¬ l = [])
    (h1 : tryP1 (splitDash (lowerL l)) = none)
    (h2 : tryP2 (splitDash (lowerL l)) = some o) : normalizeL l = o := by
  unfold normalizeL
  rw [if_neg hne]
  dsimp only
  rw [h1, h2]

theorem normalizeL_eval3 (l o : List Char) (hne : ¬ l = [])
    (h1 : tryP1 (splitDash (lowerL l)) = none)
    (h2 : tryP2 (splitDash (lowerL l)) = none)
    (h3 : tryP3 (splitDash (lowerL l)) = some o) : normalizeL l = o := by
  unfold normalizeL
  rw [if_neg hne]
  dsimp only
  rw [h1, h2, h3]

theorem normalizeL_eval4 (l o : List Char) (hne : ¬ l = [])
    (h1 : tryP1 (splitDash (lowerL l)) = none)
    (h2 : tryP2 (splitDash (lowerL l)) = none)
    (h3 : tryP3 (splitDash (lowerL l)) = none)
    (h4 : tryP4 (splitDash (lowerL l)) = some o) : normalizeL l = o := by
  unfold normalizeL
  rw [if_neg hne]
  dsimp only
  rw [h1, h2, h3, h4]

theorem normalizeL_eval5 (l o : List Char) (hne : ¬ l = [])
    (h1 : tryP1 (splitDash (lowerL l)) = none)
    (h2 : tryP2 (splitDash (lowerL l)) = none)
    (h3 : tryP3 (splitDash (lowerL l)) = none)
    (h4 : tryP4 (splitDash (lowerL l)) = none)
    (h5 : tryP5 (lowerL l) = some o) : normalizeL l = o := by
  unfold normalizeL
  rw [if_neg hne]
  dsimp only
  rw [h1, h2, h3, h4, h5]

theorem normalizeL_eval_id (l : List Char)
    (h1 : tryP1 (splitDash (lowerL l)) = none)
    (h2 : tryP2 (splitDash (lowerL l)) = none)
    (h3 : tryP3 (splitDash (lowerL l)) = none)
    (h4 : tryP4 (splitDash (lowerL l)) = none)
    (h5 : tryP5 (lowerL l) = none) : normalizeL l = l := by
  by_cases hne : l = []
  · rw [hne]
    rfl
  · unfold normalizeL
    rw [if_neg hne]
    dsimp only
    rw [h1, h2, h3, h4, h5]

theorem splitDash_shapeA (f a b : List Char) (hf : isFamSeg f = true)
    (ha : digits1 a = true) (hb : digits1 b = true) :
    splitDash ("claude-".data ++ f ++ '-' :: (a ++ '.' :: b)) =
      ["claude".data, f, a ++ '.' :: b] := by
  have h0 : "claude-".data ++ f ++ '-' :: (a ++ '.' :: b) =
      "claude".data ++ '-' :: (f ++ '-' :: (a ++ '.' :: b)) := rfl
  rw [h0, splitDash_append _ _ (by decide), splitDash_append _ _ (famSeg_no_dash hf),
    splitDash_no_dash _ (dotted_shape_no_dash ha hb)]

theorem splitDash_shapeB (f m : List Char) (hf : isFamSeg f = true)
    (hm : digits1 m = true) :
    splitDash ("claude-".data ++ f ++ '-' :: m) = ["claude".data, f, m] := by
  have h0 : "claude-".data ++ f ++ '-' :: m =
      "claude".data ++ '-' :: (f ++ '-' :: m) := rfl
  rw [h0, splitDash_append _ _ (by decide), splitDash_append _ _ (famSeg_no_dash hf),
    splitDash_no_dash _ (digits_no_dash hm)]

theorem splitDash_shapeC (a b f : List Char) (ha : digits1 a = true)
    (hb : digits1 b = true) (hf : isFamSeg f = true) :
    splitDash ("claude-".data ++ a ++ '.' :: (b ++ '-' :: f)) =
      ["claude".data, a ++ '.' :: b, f] := by
  have h0 : "claude-".data ++ a ++ '.' :: (b ++ '-' :: f) =
      "claude".data ++ '-' :: ((a ++ '.' :: b) ++ '-' :: f) := by simp
  rw [h0, splitDash_append _ _ (by decide),
    splitDash_append _ _ (dotted_shape_no_dash ha hb),
    splitDash_no_dash _ (famSeg_no_dash hf)]

theorem splitDash_shapeD (f : List Char) (hf : isFamSeg f = true) :
    splitDash ("claude-".data ++ f) = ["claude".data, f] := by
  have h0 : "claude-".data ++ f = "claude".data ++ '-' :: f := rfl
  rw [h0, splitDash_append _ _ (by decide),
    splitDash_no_dash _ (famSeg_no_dash hf)]

theorem tryP2_dotted3 (x y a b : List Char) : tryP2 [x, y, a ++ '.' :: b] = none := by
  simp [tryP2, digits1_of_dotted_false]

theorem tryP2_dotted_mid3 (x a b f : List Char) (ha : digits1 a = true) :
    tryP2 [x, a ++ '.' :: b, f] = none := by
  simp [tryP2, isFamSeg_of_dotted_false a b ha]

theorem tryP4_dotted_last3 (x y a b : List Char) : tryP4 [x, y, a ++ '.' :: b] = none := by
  simp [tryP4, isDate8_of_dotted_false]

theorem tryP4_dotted_mid3 (x a b f : List Char) (ha : digits1 a = true) :
    tryP4 [x, a ++ '.' :: b, f] = none := by
  simp [tryP4, isFamSeg_of_dotted_false a b ha]

theorem tryP2_eval3 (f m : List Char) (hf : isFamSeg f = true) (hm : digits1 m = true) :
    tryP2 ["claude".data, f, m] = some ("claude-".data ++ f ++ '-' :: m) := by
  simp [tryP2, hf, hm]

theorem tryP5_fam_first {f : List Char} (hf : isFamSeg f = true) (r : List Char) :
    tryP5 ("claude-".data ++ (f ++ r)) = none := by
  rcases isFamSeg_cases hf with h | h | h <;> subst h <;> rfl

theorem tryP5_shapeD_none {f : List Char} (hf : isFamSeg f = true) :
    tryP5 ("claude-".data ++ f) = none := by
  have := tryP5_fam_first hf []
  rwa [List.append_nil] at this

theorem tryP5_shapeC_none (a b f : List Char) (ha : digits1 a = true)
    (hb : digits1 b = true) (hf : isFamSeg f = true) :
    tryP5 ("claude-".data ++ a ++ '.' :: (b ++ '-' :: f)) = none := by
  cases hcase : tryP5 ("claude-".data ++ a ++ '.' :: (b ++ '-' :: f)) with
  | none => rfl
  | some o =>
    exfalso
    obtain ⟨a2, b2, f2, r7, hl, ha2, hb2, hf2, -⟩ := tryP5_inv _ _ hcase
    have hl2 : "claude-".data ++ (a ++ '.' :: (b ++ '-' :: f)) =
        "claude-".data ++ (a2 ++ '.' :: (b2 ++ '-' :: (f2 ++ '-' :: r7))) := by
      simpa [List.append_assoc] using hl
    have hX : a ++ '.' :: (b ++ '-' :: f) =
        a2 ++ '.' :: (b2 ++ '-' :: (f2 ++ '-' :: r7)) := List.append_cancel_left hl2
    have hdot : ∀ (c : Char) (t : List Char), ('.' : Char) :: t = c :: t →
        isDigitC c = false := by
      intro c t h
      cases h
      rfl
    have ht1 : (a ++ '.' :: (b ++ '-' :: f)).takeWhile isDigitC = a :=
      takeWhile_digits_append a _ (digits1_all ha) (by intro c t h; cases h; rfl)
    have ht2 : (a2 ++ '.' :: (b2 ++ '-' :: (f2 ++ '-' :: r7))).takeWhile isDigitC = a2 :=
      takeWhile_digits_append a2 _ (digits1_all ha2) (by intro c t h; cases h; rfl)
    rw [hX, ht2] at ht1
    subst ht1
    have hX2 : b ++ '-' :: f = b2 ++ '-' :: (f2 ++ '-' :: r7) := by
      have := List.append_cancel_left hX
      exact List.cons.inj this |>.2
    have hu1 : (b ++ '-' :: f).takeWhile isDigitC = b :=
      takeWhile_digits_append b _ (digits1_all hb) (by intro c t h; cases h; rfl)
    have hu2 : (b2 ++ '-' :: (f2 ++ '-' :: r7)).takeWhile isDigitC = b2 :=
      takeWhile_digits_append b2 _ (digits1_all hb2) (by intro c t h; cases h; rfl)
    rw [hX2, hu2] at hu1
    subst hu1
    have hX3 : f = f2 ++ '-' :: r7 := by
      have := List.append_cancel_left hX2
      exact List.cons.inj this |>.2
    have hmem : ('-' : Char) ∈ f := by
      rw [hX3]
      simp
    exact famSeg_no_dash hf '-' hmem rfl

theorem normalizeL_fixA (f a b : List Char) (hf : isFamSeg f = true)
    (ha : digits1 a = true) (hb : digits1 b = true) :
    normalizeL ("claude-".data ++ f ++ '-' :: (a ++ '.' :: b)) =
      "claude-".data ++ f ++ '-' :: (a ++ '.' :: b) := by
  have hlow : lowerL ("claude-".data ++ f ++ '-' :: (a ++ '.' :: b)) =
      "claude-".data ++ f ++ '-' :: (a ++ '.' :: b) :=
    lowfix_append (lowfix_append lowfix_claude (lowerL_fam hf))
      (lowfix_cons toLower_dash (lowfix_append (lowerL_digits (digits1_all ha))
        (lowfix_cons toLower_dot (lowerL_digits (digits1_all hb)))))
  refine normalizeL_eval_id _ ?_ ?_ ?_ ?_ ?_
  · rw [hlow, splitDash_shapeA f a b hf ha hb]
    rfl
  · rw [hlow, splitDash_shapeA f a b hf ha hb]
    exact tryP2_dotted3 _ _ _ _
  · rw [hlow, splitDash_shapeA f a b hf ha hb]
    rfl
  · rw [hlow, splitDash_shapeA f a b hf ha hb]
    exact tryP4_dotted_last3 _ _ _ _
  · rw [hlow]
    exact tryP5_fam_first hf _

theorem normalizeL_fixB (f m : List Char) (hf : isFamSeg f = true)
    (hm : digits1 m = true) :
    normalizeL ("claude-".data ++ f ++ '-' :: m) = "claude-".data ++ f ++ '-' :: m := by
  have hlow : lowerL ("claude-".data ++ f ++ '-' :: m) =
      "claude-".data ++ f ++ '-' :: m :=
    lowfix_append (lowfix_append lowfix_claude (lowerL_fam hf))
      (lowfix_cons toLower_dash (lowerL_digits (digits1_all hm)))
  refine normalizeL_eval2 _ _ (by intro h; exact List.noConfusion h) ?_ ?_
  · rw [hlow, splitDash_shapeB f m hf hm]
    rfl
  · rw [hlow, splitDash_shapeB f m hf hm]
    exact tryP2_eval3 f m hf hm

theorem normalizeL_fixC (a b f : List Char) (ha : digits1 a = true)
    (hb : digits1 b = true) (hf : isFamSeg f = true) :
    normalizeL ("claude-".data ++ a ++ '.' :: (b ++ '-' :: f)) =
      "claude-".data ++ a ++ '.' :: (b ++ '-' :: f) := by
  have hlow : lowerL ("claude-".data ++ a ++ '.' :: (b ++ '-' :: f)) =
      "claude-".data ++ a ++ '.' :: (b ++ '-' :: f) :=
    lowfix_append (lowfix_append lowfix_claude (lowerL_digits (digits1_all ha)))
      (lowfix_cons toLower_dot (lowfix_append (lowerL_digits (digits1_all hb))
        (lowfix_cons toLower_dash (lowerL_fam hf))))
  refine normalizeL_eval_id _ ?_ ?_ ?_ ?_ ?_
  · rw [hlow, splitDash_shapeC a b f ha hb hf]
    rfl
  · rw [hlow, splitDash_shapeC a b f ha hb hf]
    exact tryP2_dotted_mid3 _ _ _ _ ha
  · rw [hlow, splitDash_shapeC a b f ha hb hf]
    rfl
  · rw [hlow, splitDash_shapeC a b f ha hb hf]
    exact tryP4_dotted_mid3 _ _ _ _ ha
  · rw [hlow]
    exact tryP5_shapeC_none a b f ha hb hf

theorem normalizeL_fixD (f : List Char) (hf : isFamSeg f = true) :
    normalizeL ("claude-".data ++ f) = "claude-".data ++ f := by
  have hlow : lowerL ("claude-".data ++ f) = "claude-".data ++ f :=
    lowfix_append lowfix_claude (lowerL_fam hf)
  refine normalizeL_eval_id _ ?_ ?_ ?_ ?_ ?_
  · rw [hlow, splitDash_shapeD f hf]
    rfl
  · rw [hlow, splitDash_shapeD f hf]
    rfl
  · rw [hlow, splitDash_shapeD f hf]
    rfl
  · rw [hlow, splitDash_shapeD f hf]
    rfl
  · rw [hlow]
    exact tryP5_shapeD_none hf

theorem lowerL_shapeA (f a b : List Char) (hf : isFamSeg f = true)
    (ha : digits1 a = true) (hb : digits1 b = true) :
    lowerL ("claude-".data ++ f ++ '-' :: (a ++ '.' :: b)) =
      "claude-".data ++ f ++ '-' :: (a ++ '.' :: b) :=
  lowfix_append (lowfix_append lowfix_claude (lowerL_fam hf))
    (lowfix_cons toLower_dash (lowfix_append (lowerL_digits (digits1_all ha))
      (lowfix_cons toLower_dot (lowerL_digits (digits1_all hb)))))

theorem lowerL_shapeB (f m : List Char) (hf : isFamSeg f = true)
    (hm : digits1 m = true) :
    lowerL ("claude-".data ++ f ++ '-' :: m) = "claude-".data ++ f ++ '-' :: m :=
  lowfix_append (lowfix_append lowfix_claude (lowerL_fam hf))
    (lowfix_cons toLower_dash (lowerL_digits (digits1_all hm)))

theorem lowerL_shapeC (a b f : List Char) (ha : digits1 a = true)
    (hb : digits1 b = true) (hf : isFamSeg f = true) :
    lowerL ("claude-".data ++ a ++ '.' :: (b ++ '-' :: f)) =
      "claude-".data ++ a ++ '.' :: (b ++ '-' :: f) :=
  lowfix_append (lowfix_append lowfix_claude (lowerL_digits (digits1_all ha)))
    (lowfix_cons toLower_dot (lowfix_append (lowerL_digits (digits1_all hb))
      (lowfix_cons toLower_dash (lowerL_fam hf))))

theorem lowerL_shapeD (f : List Char) (hf : isFamSeg f = true) :
    lowerL ("claude-".data ++ f) = "claude-".data ++ f :=
  lowfix_append lowfix_claude (lowerL_fam hf)

theorem lowerL_shapeG (dd f dd2 : List Char) (hdd : isDotted dd = true)
    (hf : isFamSeg f = true) (hdd2 : isDotted dd2 = true) :
    lowerL ("claude-".data ++ dd ++ '-' :: (f ++ '-' :: dd2)) =
      "claude-".data ++ dd ++ '-' :: (f ++ '-' :: dd2) :=
  lowfix_append (lowfix_append lowfix_claude (lowerL_dotted hdd))
    (lowfix_cons toLower_dash (lowfix_append (lowerL_fam hf)
      (lowfix_cons toLower_dash (lowerL_dotted hdd2))))

theorem extractFamL_shapeA (f a b : List Char) (hf : isFamSeg f = true) :
    extractFamL ("claude-".data ++ f ++ '-' :: (a ++ '.' :: b)) = f := by
  have h1 : "claude-".data ++ f ++ '-' :: (a ++ '.' :: b) =
      "claude-".data ++ (f ++ '-' :: (a ++ '.' :: b)) := by simp
  rw [h1]
  exact extractFamL_pre_fam _ _ _ claude_hso hf

theorem extractFamL_shapeB (f m : List Char) (hf : isFamSeg f = true) :
    extractFamL ("claude-".data ++ f ++ '-' :: m) = f := by
  have h1 : "claude-".data ++ f ++ '-' :: m = "claude-".data ++ (f ++ '-' :: m) := by
    simp
  rw [h1]
  exact extractFamL_pre_fam _ _ _ claude_hso hf

theorem extractFamL_shapeD (f : List Char) (hf : isFamSeg f = true) :
    extractFamL ("claude-".data ++ f) = f := by
  have h1 : "claude-".data ++ f = "claude-".data ++ (f ++ []) := by simp
  rw [h1]
  exact extractFamL_pre_fam _ _ _ claude_hso hf

theorem extractFamL_shapeC (a b f : List Char) (ha : digits1 a = true)
    (hb : digits1 b = true) (hf : isFamSeg f = true) :
    extractFamL ("claude-".data ++ a ++ '.' :: (b ++ '-' :: f)) = f := by
  have h1 : "claude-".data ++ a ++ '.' :: (b ++ '-' :: f) =
      ("claude-".data ++ (a ++ '.' :: (b ++ ['-']))) ++ (f ++ []) := by simp
  rw [h1]
  exact extractFamL_pre_fam _ _ _
    (hso_append claude_hso (hso_append (hso_digits ha)
      (hso_cons (by decide) (hso_append (hso_digits hb) dash_hso)))) hf

theorem extractFamL_shapeP5 (a b f r : List Char) (ha : digits1 a = true)
    (hb : digits1 b = true) (hf : isFamSeg f = true) :
    extractFamL ("claude-".data ++ a ++ '.' :: (b ++ '-' :: (f ++ '-' :: r))) = f := by
  have h1 : "claude-".data ++ a ++ '.' :: (b ++ '-' :: (f ++ '-' :: r)) =
      ("claude-".data ++ (a ++ '.' :: (b ++ ['-']))) ++ (f ++ '-' :: r) := by simp
  rw [h1]
  exact extractFamL_pre_fam _ _ _
    (hso_append claude_hso (hso_append (hso_digits ha)
      (hso_cons (by decide) (hso_append (hso_digits hb) dash_hso)))) hf

theorem extractFamL_shapeG (dd f dd2 : List Char) (hdd : isDotted dd = true)
    (hf : isFamSeg f = true) :
    extractFamL ("claude-".data ++ dd ++ '-' :: (f ++ '-' :: dd2)) = f := by
  have h1 : "claude-".data ++ dd ++ '-' :: (f ++ '-' :: dd2) =
      ("claude-".data ++ (dd ++ ['-'])) ++ (f ++ '-' :: dd2) := by simp
  rw [h1]
  exact extractFamL_pre_fam _ _ _
    (hso_append claude_hso (hso_append (dotted_chars_not_hso hdd) dash_hso)) hf

theorem extractFamL_joinDash_fam (f x : List Char) (t : List (List Char))
    (hf : isFamSeg f = true) :
    extractFamL (joinDash ("claude".data :: f :: x :: t)) = f := by
  have h0 : joinDash ("claude".data :: f :: x :: t) =
      "claude-".data ++ (f ++ '-' :: joinDash (x :: t)) := rfl
  rw [h0]
  exact extractFamL_pre_fam _ _ _ claude_hso hf

theorem extractFamL_joinDash_seg_fam (s1 f : List Char) (t : List (List Char))
    (hs1 : ∀ c ∈ s1, c ≠ 'h' ∧ c ≠ 's' ∧ c ≠ 'o') (hf : isFamSeg f = true) :
    extractFamL (joinDash ("claude".data :: s1 :: f :: t)) = f := by
  obtain ⟨r, hr⟩ := joinDash_cons_ex f t
  have h0 : joinDash ("claude".data :: s1 :: f :: t) =
      "claude-".data ++ (s1 ++ '-' :: joinDash (f :: t)) := rfl
  rw [h0, hr]
  have h1 : "claude-".data ++ (s1 ++ '-' :: (f ++ r)) =
      ("claude-".data ++ (s1 ++ ['-'])) ++ (f ++ r) := by simp
  rw [h1]
  exact extractFamL_pre_fam _ _ _
    (hso_append claude_hso (hso_append hs1 dash_hso)) hf

theorem extractFamL_joinDash_seg2_fam (s1 s2 f : List Char) (t : List (List Char))
    (hs1 : ∀ c ∈ s1, c ≠ 'h' ∧ c ≠ 's' ∧ c ≠ 'o')
    (hs2 : ∀ c ∈ s2, c ≠ 'h' ∧ c ≠ 's' ∧ c ≠ 'o') (hf : isFamSeg f = true) :
    extractFamL (joinDash ("claude".data :: s1 :: s2 :: f :: t)) = f := by
  obtain ⟨r, hr⟩ := joinDash_cons_ex f t
  have h0 : joinDash ("claude".data :: s1 :: s2 :: f :: t) =
      "claude-".data ++ (s1 ++ '-' :: (s2 ++ '-' :: joinDash (f :: t))) := rfl
  rw [h0, hr]
  have h1 : "claude-".data ++ (s1 ++ '-' :: (s2 ++ '-' :: (f ++ r))) =
      ("claude-".data ++ (s1 ++ '-' :: (s2 ++ ['-']))) ++ (f ++ r) := by simp
  rw [h1]
  exact extractFamL_pre_fam _ _ _
    (hso_append claude_hso (hso_append hs1
      (hso_cons (by decide) (hso_append hs2 dash_hso)))) hf

theorem normalizeL_cases (l : List Char) :
    normalizeL l = l ∨
    ∃ o, normalizeL l = o ∧ lowerL o = o ∧
      extractFamL o = extractFamL (lowerL l) ∧
      ((∃ f a b, isFamSeg f = true ∧ digits1 a = true ∧ digits1 b = true ∧
          o = "claude-".data ++ f ++ '-' :: (a ++ '.' :: b)) ∨
       (∃ f m, isFamSeg f = true ∧ digits1 m = true ∧
          o = "claude-".data ++ f ++ '-' :: m) ∨
       (∃ a b f, digits1 a = true ∧ digits1 b = true ∧ isFamSeg f = true ∧
          o = "claude-".data ++ a ++ '.' :: (b ++ '-' :: f)) ∨
       (∃ f, isFamSeg f = true ∧ o = "claude-".data ++ f) ∨
       (∃ dd f dd2, isDotted dd = true ∧ isFamSeg f = true ∧ isDotted dd2 = true ∧
          o = "claude-".data ++ dd ++ '-' :: (f ++ '-' :: dd2) ∧
          isP4BothSegs (splitDash (lowerL l)) = true)) := by
  by_cases hne : l = []
  · left
    rw [hne]
    rfl
  · cases h1 : tryP1 (splitDash (lowerL l)) with
    | some o =>
      right
      obtain ⟨f, maj, mn, tail, hsg, hf, hmaj, hmn, ho⟩ := tryP1_inv _ _ h1
      have hin : extractFamL (lowerL l) = f := by
        conv_lhs => rw [← joinDash_splitDash (lowerL l), hsg]
        exact extractFamL_joinDash_fam f maj (mn :: tail) hf
      refine ⟨o, normalizeL_eval1 _ _ hne h1, ?_, ?_,
        Or.inl ⟨f, maj, mn, hf, hmaj, hmn, ho⟩⟩
      · rw [ho]
        exact lowerL_shapeA f maj mn hf hmaj hmn
      · rw [ho, extractFamL_shapeA f maj mn hf, hin]
    | none =>
      cases h2 : tryP2 (splitDash (lowerL l)) with
      | some o =>
        right
        obtain ⟨f, maj, tail, hsg, hf, hmaj, ho⟩ := tryP2_inv _ _ h2
        have hin : extractFamL (lowerL l) = f := by
          conv_lhs => rw [← joinDash_splitDash (lowerL l), hsg]
          exact extractFamL_joinDash_fam f maj tail hf
        refine ⟨o, normalizeL_eval2 _ _ hne h1 h2, ?_, ?_,
          Or.inr (Or.inl ⟨f, maj, hf, hmaj, ho⟩)⟩
        · rw [ho]
          exact lowerL_shapeB f maj hf hmaj
        · rw [ho, extractFamL_shapeB f maj hf, hin]
      | none =>
        cases h3 : tryP3 (splitDash (lowerL l)) with
        | some o =>
          right
          obtain ⟨maj, mn, f, tail, hsg, hmaj, hmn, hf, ho⟩ := tryP3_inv _ _ h3
          have hin : extractFamL (lowerL l) = f := by
            conv_lhs => rw [← joinDash_splitDash (lowerL l), hsg]
            exact extractFamL_joinDash_seg2_fam maj mn f tail
              (hso_digits hmaj) (hso_digits hmn) hf
          refine ⟨o, normalizeL_eval3 _ _ hne h1 h2 h3, ?_, ?_,
            Or.inr (Or.inr (Or.inl ⟨maj, mn, f, hmaj, hmn, hf, ho⟩))⟩
          · rw [ho]
            exact lowerL_shapeC maj mn f hmaj hmn hf
          · rw [ho, extractFamL_shapeC maj mn f hmaj hmn hf, hin]
        | none =>
          cases h4 : tryP4 (splitDash (lowerL l)) with
          | some o =>
            right
            rcases tryP4_inv _ _ h4 with
              ⟨f, d8, hsg, hf, hd8, ho⟩ | ⟨dd, f, d8, hsg, hdd, hf, hd8, ho⟩ |
              ⟨f, dd, d8, hsg, hf, hdd, hd8, ho⟩ |
              ⟨dd, f, dd2, d8, hsg, hdd, hf, hdd2, hd8, ho⟩
            · have hin : extractFamL (lowerL l) = f := by
                conv_lhs => rw [← joinDash_splitDash (lowerL l), hsg]
                exact extractFamL_joinDash_fam f d8 [] hf
              refine ⟨o, normalizeL_eval4 _ _ hne h1 h2 h3 h4, ?_, ?_,
                Or.inr (Or.inr (Or.inr (Or.inl ⟨f, hf, ho⟩)))⟩
              · rw [ho]
                exact lowerL_shapeD f hf
              · rw [ho, extractFamL_shapeD f hf, hin]
            · obtain ⟨a, b, hddeq, hA, hB⟩ := isDotted_decomp hdd
              have ho2 : o = "claude-".data ++ a ++ '.' :: (b ++ '-' :: f) := by
                rw [ho, hddeq]
                simp
              have hin : extractFamL (lowerL l) = f := by
                conv_lhs => rw [← joinDash_splitDash (lowerL l), hsg]
                exact extractFamL_joinDash_seg_fam dd f [d8]
                  (dotted_chars_not_hso hdd) hf
              refine ⟨o, normalizeL_eval4 _ _ hne h1 h2 h3 h4, ?_, ?_,
                Or.inr (Or.inr (Or.inl ⟨a, b, f, hA, hB, hf, ho2⟩))⟩
              · rw [ho2]
                exact lowerL_shapeC a b f hA hB hf
              · rw [ho2, extractFamL_shapeC a b f hA hB hf, hin]
            · obtain ⟨a, b, hddeq, hA, hB⟩ := isDotted_decomp hdd
              have ho2 : o = "claude-".data ++ f ++ '-' :: (a ++ '.' :: b) := by
                rw [ho, hddeq]
              have hin : extractFamL (lowerL l) = f := by
                conv_lhs => rw [← joinDash_splitDash (lowerL l), hsg]
                exact extractFamL_joinDash_fam f dd [d8] hf
              refine ⟨o, normalizeL_eval4 _ _ hne h1 h2 h3 h4, ?_, ?_,
                Or.inl ⟨f, a, b, hf, hA, hB, ho2⟩⟩
              · rw [ho2]
                exact lowerL_shapeA f a b hf hA hB
              · rw [ho2, extractFamL_shapeA f a b hf, hin]
            · have hflag : isP4BothSegs (splitDash (lowerL l)) = true := by
                rw [hsg]
                simp [isP4BothSegs, hdd, hf, hdd2, hd8]
              have hin : extractFamL (lowerL l) = f := by
                conv_lhs => rw [← joinDash_splitDash (lowerL l), hsg]
                exact extractFamL_joinDash_seg_fam dd f [dd2, d8]
                  (dotted_chars_not_hso hdd) hf
              refine ⟨o, normalizeL_eval4 _ _ hne h1 h2 h3 h4, ?_, ?_,
                Or.inr (Or.inr (Or.inr (Or.inr ⟨dd, f, dd2, hdd, hf, hdd2, ho, hflag⟩)))⟩
              · rw [ho]
                exact lowerL_shapeG dd f dd2 hdd hf hdd2
              · rw [ho, extractFamL_shapeG dd f dd2 hdd hf, hin]
          | none =>
            cases h5 : tryP5 (lowerL l) with
            | some o =>
              right
              obtain ⟨a, b, f, r7, hl, hA, hB, hf, ho⟩ := tryP5_inv _ _ h5
              have hin : extractFamL (lowerL l) = f := by
                rw [hl]
                exact extractFamL_shapeP5 a b f r7 hA hB hf
              refine ⟨o, normalizeL_eval5 _ _ hne h1 h2 h3 h4 h5, ?_, ?_,
                Or.inl ⟨f, a, b, hf, hA, hB, ho⟩⟩
              · rw [ho]
                exact lowerL_shapeA f a b hf hA hB
              · rw [ho, extractFamL_shapeA f a b hf, hin]
            | none =>
              left
              exact normalizeL_eval_id _ h1 h2 h3 h4 h5

theorem lowerG_eq_ascii (U : GoUnicode) (l : List Char)
    (hl : ∀ c ∈ l, c.toNat < 128) : lowerG U l = lowerL l :=
  List.map_eq_map_iff.mpr fun c hc => U.ascii_toLower c (hl c hc)

theorem normalizeLG_eq_ascii (U : GoUnicode) (l : List Char)
    (hl : ∀ c ∈ l, c.toNat < 128) : normalizeLG U l = normalizeL l := by
  unfold normalizeLG normalizeL
  rw [lowerG_eq_ascii U l hl]

theorem ascii_append {x y : List Char} (hx : ∀ c ∈ x, c.toNat < 128)
    (hy : ∀ c ∈ y, c.toNat < 128) : ∀ c ∈ x ++ y, c.toNat < 128 := by
  intro c hc
  rcases List.mem_append.1 hc with h | h
  · exact hx c h
  · exact hy c h

theorem ascii_cons {c0 : Char} {y : List Char} (h0 : c0.toNat < 128)
    (hy : ∀ c ∈ y, c.toNat < 128) : ∀ c ∈ c0 :: y, c.toNat < 128 := by
  intro c hc
  rcases List.mem_cons.1 hc with rfl | h
  · exact h0
  · exact hy c h

theorem ascii_digits {a : List Char} (ha : digits1 a = true) :
    ∀ c ∈ a, c.toNat < 128 := by
  intro c hc
  have := digits1_all ha c hc
  simp only [isDigitC, Bool.and_eq_true, decide_eq_true_eq] at this
  omega

theorem ascii_fam {f : List Char} (hf : isFamSeg f = true) :
    ∀ c ∈ f, c.toNat < 128 := by
  rcases isFamSeg_cases hf with h | h | h <;> subst h <;> decide

theorem ascii_claude : ∀ c ∈ "claude-".data, c.toNat < 128 := by decide

theorem ascii_dotted {dd : List Char} (h : isDotted dd = true) :
    ∀ c ∈ dd, c.toNat < 128 := by
  obtain ⟨a, b, hl, ha, hb⟩ := isDotted_decomp h
  subst hl
  exact ascii_append (ascii_digits ha) (ascii_cons (by decide) (ascii_digits hb))

theorem normalizeL_ascii (l : List Char) (hl : ∀ c ∈ l, c.toNat < 128) :
    ∀ c ∈ normalizeL l, c.toNat < 128 := by
  rcases normalizeL_cases l with hid | ⟨o, ho, hlow, hfam, hshape⟩
  · rw [hid]
    exact hl
  · rw [ho]
    rcases hshape with ⟨f, a, b, hf, hA, hB, ho2⟩ | ⟨f, m, hf, hm, ho2⟩ |
      ⟨a, b, f, hA, hB, hf, ho2⟩ | ⟨f, hf, ho2⟩ |
      ⟨dd, f, dd2, hdd, hf, hdd2, ho2, -⟩
    · rw [ho2]
      exact ascii_append (ascii_append ascii_claude (ascii_fam hf))
        (ascii_cons (by decide) (ascii_append (ascii_digits hA)
          (ascii_cons (by decide) (ascii_digits hB))))
    · rw [ho2]
      exact ascii_append (ascii_append ascii_claude (ascii_fam hf))
        (ascii_cons (by decide) (ascii_digits hm))
    · rw [ho2]
      exact ascii_append (ascii_append ascii_claude (ascii_digits hA))
        (ascii_cons (by decide) (ascii_append (ascii_digits hB)
          (ascii_cons (by decide) (ascii_fam hf))))
    · rw [ho2]
      exact ascii_append ascii_claude (ascii_fam hf)
    · rw [ho2]
      exact ascii_append (ascii_append ascii_claude (ascii_dotted hdd))
        (ascii_cons (by decide) (ascii_append (ascii_fam hf)
          (ascii_cons (by decide) (ascii_dotted hdd2))))

theorem prefixFold_eq_ascii (U : GoUnicode) (w : List Char)
    (hw : ∀ p ∈ w, p.toNat < 128 ∧ p.toLower = p) :
    ∀ l : List Char, (∀ c ∈ l, c.toNat < 128) →
      prefixFold U w l = w.isPrefixOf (lowerL l) := by
  induction w with
  | nil =>
    intro l _
    cases l <;> rfl
  | cons p ps ih =>
    intro l hl
    cases l with
    | nil => rfl
    | cons c t =>
      have hc := hl c (List.mem_cons_self _ _)
      have hp := hw p (List.mem_cons_self _ _)
      show (U.foldEq c p && prefixFold U ps t) =
        ((p == c.toLower) && ps.isPrefixOf (lowerL t))
      rw [U.ascii_foldEq c p hc hp.1,
        ih (fun q hq => hw q (List.mem_cons_of_mem _ hq)) t
          (fun x hx => hl x (List.mem_cons_of_mem _ hx))]
      conv_lhs => rw [hp.2]
      rw [Bool.beq_comm]

theorem extractFamG_eq_ascii (U : GoUnicode) :
    ∀ l : List Char, (∀ c ∈ l, c.toNat < 128) →
      extractFamG U l = extractFamL (lowerL l) := by
  intro l
  induction l with
  | nil =>
    intro _
    rfl
  | cons c t ih =>
    intro hl
    have htail : ∀ x ∈ t, x.toNat < 128 :=
      fun x hx => hl x (List.mem_cons_of_mem _ hx)
    have hh := prefixFold_eq_ascii U "haiku".data (by decide) (c :: t) hl
    have hs := prefixFold_eq_ascii U "sonnet".data (by decide) (c :: t) hl
    have hop := prefixFold_eq_ascii U "opus".data (by decide) (c :: t) hl
    have hmatch : ∀ (w : List Char) (n : Nat), w.length = n →
        w.isPrefixOf (lowerL (c :: t)) = true →
        lowerG U ((c :: t).take n) = w := by
      intro w n hn hpre
      have h1 : lowerG U ((c :: t).take n) = lowerL ((c :: t).take n) :=
        lowerG_eq_ascii U _ (fun x hx => hl x (List.mem_of_mem_take hx))
      have h2 : lowerL ((c :: t).take n) = (lowerL (c :: t)).take n :=
        List.map_take _ _ _
      have h3 : (lowerL (c :: t)).take n = w := by
        rw [← hn]
        exact (List.prefix_iff_eq_take.mp (List.isPrefixOf_iff_prefix.mp hpre)).symm
      rw [h1, h2, h3]
    show (match famAtG U (c :: t) with
          | some m => lowerG U m
          | none => extractFamG U t) =
        (match famAt (lowerL (c :: t)) with
         | some f => f
         | none => extractFamL (lowerL t))
    unfold famAtG famAt
    rw [hh, hs, hop]
    by_cases h1 : "haiku".data.isPrefixOf (lowerL (c :: t)) = true
    · rw [if_pos h1, if_pos h1]
      exact hmatch _ 5 rfl h1
    · rw [if_neg h1, if_neg h1]
      by_cases h2 : "sonnet".data.isPrefixOf (lowerL (c :: t)) = true
      · rw [if_pos h2, if_pos h2]
        exact hmatch _ 6 rfl h2
      · rw [if_neg h2, if_neg h2]
        by_cases h3 : "opus".data.isPrefixOf (lowerL (c :: t)) = true
        · rw [if_pos h3, if_pos h3]
          exact hmatch _ 4 rfl h3
        · rw [if_neg h3, if_neg h3]
          exact ih htail

theorem normalizeL_idem (l : List Char)
    (hflag : isP4BothSegs (splitDash (lowerL l)) = false) :
    normalizeL (normalizeL l) = normalizeL l := by
  rcases normalizeL_cases l with hid | ⟨o, ho, hlow, hfam, hshape⟩
  · rw [hid, hid]
  · have key : normalizeL o = o := by
      rcases hshape with ⟨f, a, b, hf, hA, hB, ho2⟩ | ⟨f, m, hf, hm, ho2⟩ |
        ⟨a, b, f, hA, hB, hf, ho2⟩ | ⟨f, hf, ho2⟩ |
        ⟨dd, f, dd2, hdd, hf, hdd2, ho2, hfl⟩
      · rw [ho2]
        exact normalizeL_fixA f a b hf hA hB
      · rw [ho2]
        exact normalizeL_fixB f m hf hm
      · rw [ho2]
        exact normalizeL_fixC a b f hA hB hf
      · rw [ho2]
        exact normalizeL_fixD f hf
      · exact absurd (hfl.symm.trans hflag) (by decide)
    rw [ho, key]

/-- C3 (amended): for every ASCII input string on which model.NormalizeModelName
changes the string, the family token extracted by model.ExtractModelFamily
from the output equals the one extracted from the input — on ASCII names
normalization never maps a name of one family (`haiku`/`sonnet`/`opus`) to a
name of a different family.  Quantified over every Unicode boundary `U`
satisfying the Go table facts, so it holds in particular of Go's own
strings.ToLower and `(?i)` folding. -/
theorem c3_family_preserved (U : GoUnicode) (s : String)
    (hascii : ∀ c ∈ s.data, c.toNat < 128)
    (h : NormalizeModelName U s ≠ s) :
    ExtractModelFamily U (NormalizeModelName U s) = ExtractModelFamily U s := by
  have h1 : normalizeLG U s.data = normalizeL s.data :=
    normalizeLG_eq_ascii U _ hascii
  have ha2 : ∀ c ∈ normalizeL s.data, c.toNat < 128 := normalizeL_ascii _ hascii
  show String.mk (extractFamG U (normalizeLG U s.data)) =
    String.mk (extractFamG U s.data)
  rw [h1, extractFamG_eq_ascii U _ ha2, extractFamG_eq_ascii U _ hascii]
  rcases normalizeL_cases s.data with hid | ⟨o, ho, hlow, hfam, -⟩
  · rw [hid]
  · rw [ho, hlow, hfam]

theorem c3_witness :
    (∀ c ∈ ("claude-haiku-4-5" : String).data, c.toNat < 128) ∧
    NormalizeModelName goUnicodeInst "claude-haiku-4-5" ≠ "claude-haiku-4-5" ∧
    ExtractModelFamily goUnicodeInst
        (NormalizeModelName goUnicodeInst "claude-haiku-4-5") =
      ExtractModelFamily goUnicodeInst "claude-haiku-4-5" :=
  ⟨by decide, by decide,
    c3_family_preserved goUnicodeInst "claude-haiku-4-5" (by decide) (by decide)⟩

/-- C3, counterexample to the original claim: at `claude-haİku-4-5` (with
U+0130) the program changes the string — strings.ToLower maps İ to ASCII `i`,
after which pattern 1 rewrites to `claude-haiku-4.5` — but ExtractModelFamily
searches the raw input under `(?i)` folding, which does not fold İ with `i`,
so the input's family is empty while the output's family is `haiku`:
normalization does not preserve the extracted family on this input. -/
theorem c3_counterexample :
    NormalizeModelName goUnicodeInst "claude-haİku-4-5" ≠ "claude-haİku-4-5" ∧
    NormalizeModelName goUnicodeInst "claude-haİku-4-5" = "claude-haiku-4.5" ∧
    ExtractModelFamily goUnicodeInst "claude-haİku-4-5" = "" ∧
    ExtractModelFamily goUnicodeInst
        (NormalizeModelName goUnicodeInst "claude-haİku-4-5") = "haiku" := by
  decide

/-- C9 (amended): model.NormalizeModelName is idempotent on every ASCII input
except those whose lowered dash-segmentation matches pattern 4 with both
optional `\d+.\d+` groups present (`claude-D.D-family-D.D-date`); on such
inputs the first pass strips the date and the second pass rewrites the result
via pattern 5.  (Off ASCII the Unicode lowering can manufacture further such
inputs, e.g. `claude-3.5-haİku-4.5-20250101`.)  Quantified over every Unicode
boundary `U` satisfying the Go table facts. -/
theorem c9_idempotent (U : GoUnicode) (s : String)
    (hascii : ∀ c ∈ s.data, c.toNat < 128)
    (h : isP4BothGroups s = false) :
    NormalizeModelName U (NormalizeModelName U s) = NormalizeModelName U s := by
  have h1 : normalizeLG U s.data = normalizeL s.data :=
    normalizeLG_eq_ascii U _ hascii
  have ha2 : ∀ c ∈ normalizeL s.data, c.toNat < 128 := normalizeL_ascii _ hascii
  have h2 : normalizeLG U (normalizeL s.data) = normalizeL (normalizeL s.data) :=
    normalizeLG_eq_ascii U _ ha2
  show String.mk (normalizeLG U (normalizeLG U s.data)) =
    String.mk (normalizeLG U s.data)
  rw [h1, h2, normalizeL_idem s.data h]

theorem c9_witness :
    (∀ c ∈ ("claude-haiku-4-5" : String).data, c.toNat < 128) ∧
    isP4BothGroups "claude-haiku-4-5" = false ∧
    NormalizeModelName goUnicodeInst
        (NormalizeModelName goUnicodeInst "claude-haiku-4-5") =
      NormalizeModelName goUnicodeInst "claude-haiku-4-5" :=
  ⟨by decide, by decide,
    c9_idempotent goUnicodeInst "claude-haiku-4-5" (by decide) (by decide)⟩

/-- C9, counterexample to the original claim: `claude-3.5-haiku-4.5-20250101`
matches pattern 4 with both optional groups; one pass yields
`claude-3.5-haiku-4.5`, which a second pass rewrites (via pattern 5) to
`claude-haiku-3.5`, so NormalizeModelName is not idempotent. -/
theorem c9_counterexample :
    NormalizeModelName goUnicodeInst
        (NormalizeModelName goUnicodeInst "claude-3.5-haiku-4.5-20250101") ≠
      NormalizeModelName goUnicodeInst "claude-3.5-haiku-4.5-20250101" := by
  decide

end KiroProxy
